import Mathlib

/-!
Verification of the MultiCamTrackerAPI core (src/app/services/counter.py and
src/app/services/tracker.py) against its natural-language specification.

The Python services are shallowly embedded as executable Lean functions:
* real-valued coordinates become rationals (ℚ);
* Python dicts become insertion-ordered association lists, with update-in-place,
  append-on-new-key and delete operations mirroring CPython dict semantics;
* Python sets of track ids become lists with a membership guard before insertion;
* numpy vector operations are expanded componentwise.

Euclidean norms (numpy.linalg.norm) are irrational in general, so the distance
matrix of the tracker is embedded with squared norms: x ↦ x² is strictly
monotone on nonnegative reals, hence the argmin position, all tie positions and
the order of selections are identical, and the threshold test
‖d‖ < maxDistance is equivalent to 0 < maxDistance ∧ ‖d‖² < maxDistance².
Likewise the counter stores the unnormalized line normal: the code divides it
by its (positive) Euclidean norm whenever that norm is nonzero, which preserves
the sign of every dot product, and the code only ever uses the sign; when the
line has zero length, both the code and the model store the zero vector.
-/

namespace MCTrack

/-! ## Geometry utilities (numpy expressions used in counter.py) -/

/-- Componentwise subtraction of 2-d points (numpy array subtraction). -/
def vsub (a b : ℚ × ℚ) : ℚ × ℚ := (a.1 - b.1, a.2 - b.2)

/-- The z-component of the 2-d cross product, np.cross for 2-d vectors. -/
def crossZ (a b : ℚ × ℚ) : ℚ := a.1 * b.2 - a.2 * b.1

/-- Dot product of 2-d vectors, np.dot. -/
def dot2 (a b : ℚ × ℚ) : ℚ := a.1 * b.1 + a.2 * b.2

/-- Squared Euclidean distance between two 2-d points (the square of
np.linalg.norm of the difference). -/
def distSq (p q : ℚ × ℚ) : ℚ :=
  (p.1 - q.1) * (p.1 - q.1) + (p.2 - q.2) * (p.2 - q.2)

/-! ## Association-list operations modelling CPython dicts -/

/-- Dict lookup: first binding of the key, if any. -/
def lookupAssoc {α : Type} (l : List (String × α)) (k : String) : Option α :=
  (l.find? (fun p => p.1 == k)).map (·.2)

/-- Dict assignment d[k] = v: update in place if the key exists (keeping its
position in insertion order), otherwise append the new binding. -/
def setAssoc {α : Type} (l : List (String × α)) (k : String) (v : α) : List (String × α) :=
  if l.any (fun p => p.1 == k) then
    l.map (fun p => if p.1 == k then (k, v) else p)
  else
    l ++ [(k, v)]

/-- Dict deletion del d[k]. -/
def removeAssoc {α : Type} (l : List (String × α)) (k : String) : List (String × α) :=
  l.filter (fun p => !(p.1 == k))

/-! ## Counter (class Counter in src/app/services/counter.py) -/

/-- The crossing_line argument of Counter.__init__. -/
structure CrossingLineQ where
  x1 : ℚ
  y1 : ℚ
  x2 : ℚ
  y2 : ℚ
deriving DecidableEq

/-- One element of the objects list passed to Counter.update. -/
structure CtrObj where
  id : String
  x : ℚ
  y : ℚ
  width : ℚ
  height : ℚ
  timestamp : ℚ
deriving DecidableEq

/-- One element of Counter.crossing_timestamps (a recorded crossing event). -/
structure Crossing where
  object_id : String
  timestamp : ℚ
  direction : String
deriving DecidableEq

/-- One element of Counter.counts_by_timestamp. -/
structure CountRecord where
  timestamp : ℚ
  count : ℕ
  direction : String
  object_ids : List String
deriving DecidableEq

/-- The mutable state of a Counter instance. -/
structure CounterState where
  lineStart : ℚ × ℚ
  lineEnd : ℚ × ℚ
  direction : String
  lineNormal : ℚ × ℚ
  objectPositions : List (String × (ℚ × ℚ))
  countedObjects : List String
  crossingTimestamps : List Crossing
  countsByTimestamp : List CountRecord
  totalCount : ℕ
deriving DecidableEq

/-- Counter.__init__.  The line normal is the 90°-rotated direction vector; the
code then divides it by its Euclidean norm when that norm is positive, which
only rescales it by a positive factor (the sign of every dot product against it
is unchanged), so the model keeps the unnormalized vector.  When the line has
zero length both code and model store the zero vector. -/
def mkCounter (line : CrossingLineQ) (direction : String) : CounterState :=
  let lineStart := (line.x1, line.y1)
  let lineEnd := (line.x2, line.y2)
  let lineVector := vsub lineEnd lineStart
  let lineNormal := (-lineVector.2, lineVector.1)
  { lineStart := lineStart
    lineEnd := lineEnd
    direction := direction
    lineNormal := lineNormal
    objectPositions := []
    countedObjects := []
    crossingTimestamps := []
    countsByTimestamp := []
    totalCount := 0 }

/-- Counter._has_crossed_line: the two-sided orientation test. -/
def hasCrossedLine (s : CounterState) (prevPos currPos : ℚ × ℚ) : Bool :=
  let v1 := vsub prevPos s.lineStart
  let v2 := vsub currPos s.lineStart
  let v3 := vsub s.lineEnd s.lineStart
  let cross1 := crossZ v1 v3
  let cross2 := crossZ v2 v3
  if cross1 * cross2 ≤ 0 then
    let v4 := vsub prevPos currPos
    let v5 := vsub prevPos s.lineStart
    let v6 := vsub prevPos s.lineEnd
    let cross3 := crossZ v5 v4
    let cross4 := crossZ v6 v4
    decide (cross3 * cross4 ≤ 0)
  else
    false

/-- Counter._get_crossing_direction: dot product of the movement vector with
the line normal (sign-equivalent to the code's value, see module comment). -/
def crossingDirection (s : CounterState) (prevPos currPos : ℚ × ℚ) : ℚ :=
  dot2 (vsub currPos prevPos) s.lineNormal

/-- The direction-filter test at lines 119–121 of counter.py. -/
def accepts (filter : String) (dir : ℚ) : Bool :=
  filter == "any" || (filter == "positive" && decide (0 < dir))
    || (filter == "negative" && decide (dir < 0))

/-- Center position of an object, np.array([x + width/2, y + height/2]). -/
def ctrCenter (o : CtrObj) : ℚ × ℚ := (o.x + o.width / 2, o.y + o.height / 2)

/-- The body of the per-object loop in Counter.update.  The accumulator pairs
the counter state with the new_crossings list built during this update. -/
def counterStep (ts : ℚ) (acc : CounterState × List Crossing) (obj : CtrObj) :
    CounterState × List Crossing :=
  let s := acc.1
  let ncs := acc.2
  let position := ctrCenter obj
  match lookupAssoc s.objectPositions obj.id with
  | none =>
      ({ s with objectPositions := setAssoc s.objectPositions obj.id position }, ncs)
  | some prevPosition =>
      let dir := crossingDirection s prevPosition position
      let counted : CounterState × List Crossing :=
        if hasCrossedLine s prevPosition position then
          if accepts s.direction dir then
            if obj.id ∈ s.countedObjects then (s, ncs)
            else
              ({ s with countedObjects := s.countedObjects ++ [obj.id]
                        totalCount := s.totalCount + 1 },
               ncs ++ [{ object_id := obj.id
                         timestamp := ts
                         direction := if 0 < dir then "positive" else "negative" }])
          else (s, ncs)
        else (s, ncs)
      ({ counted.1 with
          objectPositions := setAssoc counted.1.objectPositions obj.id position },
       counted.2)

/-- Stable insertion placing o before the first element with an equal or later
timestamp, so that sortByTs below is a stable sort by timestamp, as Python's
sorted(objects, key=lambda x: x["timestamp"]) is. -/
def insertByTs (o : CtrObj) : List CtrObj → List CtrObj
  | [] => [o]
  | x :: xs => if x.timestamp < o.timestamp then x :: insertByTs o xs else o :: x :: xs

/-- Stable sort of the update batch by timestamp. -/
def sortByTs : List CtrObj → List CtrObj
  | [] => []
  | x :: xs => insertByTs x (sortByTs xs)

/-- Counter.update: returns the new state and len(new_crossings). -/
def counterUpdate (s : CounterState) (objects : List CtrObj) : CounterState × ℕ :=
  match sortByTs objects with
  | [] => (s, 0)
  | o :: rest =>
      let ts := o.timestamp
      let r := (o :: rest).foldl (counterStep ts) (s, [])
      let s1 := r.1
      let ncs := r.2
      let s2 :=
        if ncs.isEmpty then s1
        else
          { s1 with
              crossingTimestamps := s1.crossingTimestamps ++ ncs
              countsByTimestamp := s1.countsByTimestamp ++
                [{ timestamp := ts
                   count := ncs.length
                   direction := s1.direction
                   object_ids := ncs.map (·.object_id) }] }
      (s2, ncs.length)

/-- A whole run of a Counter: fold update over a sequence of batches. -/
def runCounter (line : CrossingLineQ) (direction : String)
    (batches : List (List CtrObj)) : CounterState :=
  batches.foldl (fun s b => (counterUpdate s b).1) (mkCounter line direction)

/-- A whole run of a Counter, also collecting each update's return value. -/
def runCounterTrace (line : CrossingLineQ) (direction : String)
    (batches : List (List CtrObj)) : CounterState × List ℕ :=
  batches.foldl
    (fun acc b =>
      let r := counterUpdate acc.1 b
      (r.1, acc.2 ++ [r.2]))
    (mkCounter line direction, [])

/-! ## CounterService (class CounterService in src/app/services/counter.py) -/

/-- One element of the crossed_objects list built by CounterService.update. -/
structure CrossedObj where
  track_id : String
  timestamp : ℚ
  direction : String
  camera_id : String
  conveyor_id : String
deriving DecidableEq

/-- The CountResult dataclass.  The count field carries the cumulative
self.count, as in the source. -/
structure CountResult where
  count : ℕ
  crossed_objects : List CrossedObj
deriving DecidableEq

/-- A track_data value of the tracks dict passed to CounterService.update:
its bbox in [x1, y1, x2, y2] format. -/
structure SvcBox where
  x1 : ℚ
  y1 : ℚ
  x2 : ℚ
  y2 : ℚ
deriving DecidableEq

/-- The mutable state of a CounterService instance. -/
structure CounterServiceState where
  linePosition : ℚ
  countDirection : String
  cameraId : String
  conveyorId : String
  count : ℕ
  trackHistory : List (String × (ℚ × ℚ))
  counter : CounterState
deriving DecidableEq

/-- CounterService.__init__: a horizontal counting line at y = line_position is
used for the wrapped Counter. -/
def mkCounterService (linePosition : ℚ) (countDirection : String)
    (cameraId conveyorId : String) : CounterServiceState :=
  { linePosition := linePosition
    countDirection := countDirection
    cameraId := cameraId
    conveyorId := conveyorId
    count := 0
    trackHistory := []
    counter := mkCounter
      { x1 := 0, y1 := linePosition, x2 := 1000, y2 := linePosition }
      countDirection }

/-- The body of the per-track loop of CounterService.update.  The accumulator
carries the state, the crossed_objects list and the counter_objects list. -/
def svcCounterStep (ts : ℚ)
    (acc : CounterServiceState × List CrossedObj × List CtrObj)
    (entry : String × SvcBox) :
    CounterServiceState × List CrossedObj × List CtrObj :=
  let s := acc.1
  let crossed := acc.2.1
  let counterObjects := acc.2.2
  let trackId := entry.1
  let bbox := entry.2
  let x := bbox.x1
  let y := bbox.y1
  let width := bbox.x2 - bbox.x1
  let height := bbox.y2 - bbox.y1
  let prevPosition := (lookupAssoc s.trackHistory trackId).map (·.1)
  let s1 := { s with trackHistory := setAssoc s.trackHistory trackId (y + height / 2, ts) }
  let stepped : CounterServiceState × List CrossedObj :=
    match prevPosition with
    | none => (s1, crossed)
    | some prev =>
        let currentPosition := y + height / 2
        let cd : Bool × String :=
          if prev ≤ s1.linePosition ∧ s1.linePosition < currentPosition then
            (true, "positive")
          else if s1.linePosition ≤ prev ∧ currentPosition < s1.linePosition then
            (true, "negative")
          else (false, "")
        if cd.1 ∧ (s1.countDirection = "any" ∨ cd.2 = s1.countDirection) then
          ({ s1 with count := s1.count + 1 },
           crossed ++ [{ track_id := trackId
                         timestamp := ts
                         direction := cd.2
                         camera_id := s1.cameraId
                         conveyor_id := s1.conveyorId }])
        else (s1, crossed)
  (stepped.1, stepped.2,
   counterObjects ++ [{ id := trackId, x := x, y := y,
                        width := width, height := height, timestamp := ts }])

/-- CounterService.update. -/
def svcCounterUpdate (s : CounterServiceState) (tracks : List (String × SvcBox))
    (ts : ℚ) : CounterServiceState × CountResult :=
  let r := tracks.foldl (svcCounterStep ts) (s, [], [])
  let s1 := r.1
  let crossed := r.2.1
  let counterObjects := r.2.2
  let s2 :=
    if counterObjects.isEmpty then s1
    else { s1 with counter := (counterUpdate s1.counter counterObjects).1 }
  (s2, { count := s2.count, crossed_objects := crossed })

/-- A whole run of a CounterService, collecting every crossed_objects entry
ever returned. -/
def runSvcCounter (linePosition : ℚ) (countDirection : String)
    (cameraId conveyorId : String)
    (updates : List (List (String × SvcBox) × ℚ)) :
    CounterServiceState × List CrossedObj :=
  updates.foldl
    (fun acc u =>
      let r := svcCounterUpdate acc.1 u.1 u.2
      (r.1, acc.2 ++ r.2.crossed_objects))
    (mkCounterService linePosition countDirection cameraId conveyorId, [])

/-! ## Tracker (class Tracker in src/app/services/tracker.py) -/

/-- One detection passed to Tracker update methods (class_id read with .get,
hence optional). -/
structure Detection where
  x : ℚ
  y : ℚ
  width : ℚ
  height : ℚ
  confidence : ℚ
  classId : Option ℤ
deriving DecidableEq

/-- One element of Tracker.tracked_objects. -/
structure TrackedObj where
  id : String
  x : ℚ
  y : ℚ
  width : ℚ
  height : ℚ
  confidence : ℚ
  classId : Option ℤ
  timestamp : ℚ
deriving DecidableEq

/-- The mutable state of a Tracker instance. -/
structure TrackerState where
  maxTimeDiff : ℚ
  maxDistance : ℚ
  trackedObjects : List TrackedObj
  lastTimestamp : Option ℚ
  nextId : ℕ
  trackHistory : List (String × List TrackedObj)
deriving DecidableEq

/-- Tracker.__init__. -/
def mkTracker (maxTimeDiff maxDistance : ℚ) : TrackerState :=
  { maxTimeDiff := maxTimeDiff
    maxDistance := maxDistance
    trackedObjects := []
    lastTimestamp := none
    nextId := 0
    trackHistory := [] }

/-- The track id string f"track_{n}" (Nat.repr is the decimal rendering used
by the f-string). -/
def trackName (n : ℕ) : String := "track_" ++ Nat.repr n

/-- Center of a detection, [x + width/2, y + height/2]. -/
def centerOfD (o : Detection) : ℚ × ℚ := (o.x + o.width / 2, o.y + o.height / 2)

/-- Center of a tracked object. -/
def centerOfT (t : TrackedObj) : ℚ × ℚ := (t.x + t.width / 2, t.y + t.height / 2)

/-- The loop body of Tracker._initialize_tracks. -/
def initStep (ts : ℚ) (st : TrackerState) (obj : Detection) : TrackerState :=
  let trackId := trackName st.nextId
  let t : TrackedObj :=
    { id := trackId, x := obj.x, y := obj.y, width := obj.width,
      height := obj.height, confidence := obj.confidence,
      classId := obj.classId, timestamp := ts }
  { st with nextId := st.nextId + 1
            trackedObjects := st.trackedObjects ++ [t]
            trackHistory := setAssoc st.trackHistory trackId [t] }

/-- Tracker._initialize_tracks: reset the tracked set, then give every
detection a fresh id.  No field of any detection is validated. -/
def initializeTracks (s : TrackerState) (objects : List Detection) (ts : ℚ) :
    TrackerState :=
  objects.foldl (initStep ts) { s with trackedObjects := [] }

/-! ### The greedy distance-matrix matching of Tracker._match_objects

The numpy distance matrix holds Euclidean norms; entries of matched rows and
columns are overwritten with +∞.  The model stores squared norms (strictly
monotone rescaling, identical argmin/tie positions) and uses none for the +∞
marker.  np.argmin scans the flattened row-major array and returns the first
position of the minimum; an entry previously set to +∞ is never the minimum
while a finite entry remains, and when every entry is +∞ the loop guard
distance_matrix.min() < max_distance already fails, so skipping the none
entries is exact. -/

/-- The finite entries of row i, columns numbered from j upward. -/
def rowEntries (i : ℕ) : ℕ → List (Option ℚ) → List (ℕ × ℕ × ℚ)
  | _, [] => []
  | j, none :: rest => rowEntries i (j + 1) rest
  | j, some v :: rest => (i, j, v) :: rowEntries i (j + 1) rest

/-- The finite entries of the rows, numbered from i upward, row-major. -/
def entriesFrom : ℕ → List (List (Option ℚ)) → List (ℕ × ℕ × ℚ)
  | _, [] => []
  | i, row :: rest => rowEntries i 0 row ++ entriesFrom (i + 1) rest

/-- The entries of the matrix in row-major order, none entries skipped. -/
def entriesRM (m : List (List (Option ℚ))) : List (ℕ × ℕ × ℚ) :=
  entriesFrom 0 m

/-- First minimal element of an entry list: recursion keeping the earlier
entry on ties, so the row-major-first minimum is selected, as np.argmin does. -/
def pickMin : List (ℕ × ℕ × ℚ) → Option (ℚ × ℕ × ℕ)
  | [] => none
  | e :: rest =>
      match pickMin rest with
      | none => some (e.2.2, e.1, e.2.1)
      | some (bv, bi, bj) =>
          if e.2.2 ≤ bv then some (e.2.2, e.1, e.2.1) else some (bv, bi, bj)

/-- distance_matrix.min() together with np.unravel_index(np.argmin(..)). -/
def findMin (m : List (List (Option ℚ))) : Option (ℚ × ℕ × ℕ) :=
  pickMin (entriesRM m)

/-- The entry of the matrix at row i, column j. -/
def entryAt (m : List (List (Option ℚ))) (i j : ℕ) : Option ℚ :=
  ((m[i]?).bind (fun row => row[j]?)).join

/-- Overwrite row i and column j with +∞ (distance_matrix[i, :] = inf;
distance_matrix[:, j] = inf). -/
def markUsed (i j : ℕ) (m : List (List (Option ℚ))) : List (List (Option ℚ)) :=
  m.mapIdx (fun i1 row => row.mapIdx (fun j1 e => if i1 = i ∨ j1 = j then none else e))

/-- The squared form of the loop guard norm < max_distance: for the
nonnegative norm, norm < maxD holds iff 0 < maxD and norm² < maxD². -/
def distLtB (dsq maxD : ℚ) : Bool :=
  decide (0 < maxD) && decide (dsq < maxD * maxD)

/-- The greedy while loop of Tracker._match_objects.  fuel only bounds the
recursion; every iteration turns at least one finite entry into +∞, so any
fuel above the entry count never truncates the loop. -/
def greedyMatch : ℕ → List (List (Option ℚ)) → ℚ → List (ℕ × ℕ)
  | 0, _, _ => []
  | fuel + 1, m, maxD =>
      match findMin m with
      | none => []
      | some (v, i, j) =>
          if distLtB v maxD then (i, j) :: greedyMatch fuel (markUsed i j m) maxD
          else []

/-- The pairwise squared-distance matrix of _match_objects. -/
def buildMatrix (prev curr : List (ℚ × ℚ)) : List (List (Option ℚ)) :=
  prev.map (fun p => curr.map (fun c => some (distSq p c)))

/-- The matched_indices list computed by the greedy loop. -/
def matchesOf (s : TrackerState) (objects : List Detection) : List (ℕ × ℕ) :=
  let prev := s.trackedObjects.map centerOfT
  let curr := objects.map centerOfD
  greedyMatch (prev.length * curr.length + 1) (buildMatrix prev curr) s.maxDistance

/-- The updated object built for a matched (previous track, new detection)
pair: the previous track's id with the detection's box and the new timestamp. -/
def updatedTrack (p : TrackedObj) (c : Detection) (ts : ℚ) : TrackedObj :=
  { id := p.id, x := c.x, y := c.y, width := c.width, height := c.height,
    confidence := c.confidence, classId := c.classId, timestamp := ts }

/-- A new track allocated for an unmatched detection. -/
def newTrack (n : ℕ) (c : Detection) (ts : ℚ) : TrackedObj :=
  { id := trackName n, x := c.x, y := c.y, width := c.width, height := c.height,
    confidence := c.confidence, classId := c.classId, timestamp := ts }

/-- self.track_history[id].append(t).  The source raises KeyError when the id
has no history entry; that never happens on the paths reached from the public
methods, and the model then creates the entry. -/
def appendHistory (h : List (String × List TrackedObj)) (k : String)
    (t : TrackedObj) : List (String × List TrackedObj) :=
  setAssoc h k ((lookupAssoc h k).getD [] ++ [t])

/-- The updated tracked objects built from the matched pairs (the first loop
over matched_indices). -/
def updatedOf (s : TrackerState) (objects : List Detection) (timestamp : ℚ) :
    List TrackedObj :=
  (matchesOf s objects).filterMap (fun ij =>
    match s.trackedObjects[ij.1]?, objects[ij.2]? with
    | some p, some c => some (updatedTrack p c timestamp)
    | _, _ => none)

/-- One iteration of the loop over unmatched_curr_indices: allocate a fresh
track for the detection at index j. -/
def newStep (timestamp : ℚ) (objects : List Detection)
    (acc : List TrackedObj × ℕ) (j : ℕ) : List TrackedObj × ℕ :=
  match objects[j]? with
  | none => acc
  | some c => (acc.1 ++ [newTrack acc.2 c timestamp], acc.2 + 1)

/-- The unmatched detection indices (CPython sets of small nonnegative ints
iterate in ascending order, modelled by the filtered range). -/
def unmatchedIdxOf (s : TrackerState) (objects : List Detection) : List ℕ :=
  (List.range objects.length).filter
    (fun j => !(((matchesOf s objects).map (·.2)).contains j))

/-- Tracker._match_objects. -/
def matchObjects (s : TrackerState) (objects : List Detection) (timestamp : ℚ) :
    TrackerState :=
  if s.trackedObjects.isEmpty then initializeTracks s objects timestamp
  else if objects.isEmpty then { s with trackedObjects := [] }
  else
    let updated := updatedOf s objects timestamp
    let hist1 := updated.foldl (fun h t => appendHistory h t.id t) s.trackHistory
    let r := (unmatchedIdxOf s objects).foldl (newStep timestamp objects)
      ([], s.nextId)
    let hist2 := r.1.foldl (fun h t => setAssoc h t.id [t]) hist1
    { s with trackedObjects := updated ++ r.1
             nextId := r.2
             trackHistory := hist2 }

/-- One of the two consecutive detection sets passed to Tracker.update. -/
structure DetectionBatch where
  timestamp : ℚ
  objects : List Detection
deriving DecidableEq

/-- Tracker.update: bootstrap from the first batch when no track is live, then
match against the second batch.  The timestamp-order and time-difference
checks of the source only log warnings and change no state. -/
def trackerUpdate (s : TrackerState) (d1 d2 : DetectionBatch) : TrackerState :=
  let s1 := if s.trackedObjects.isEmpty then initializeTracks s d1.objects d1.timestamp
            else s
  let s2 := matchObjects s1 d2.objects d2.timestamp
  { s2 with lastTimestamp := some d2.timestamp }

/-- A whole run of a Tracker over a sequence of update calls. -/
def runTracker (maxTD maxD : ℚ) (pairs : List (DetectionBatch × DetectionBatch)) :
    TrackerState :=
  pairs.foldl (fun s p => trackerUpdate s p.1 p.2) (mkTracker maxTD maxD)

/-! ## TrackerService (class TrackerService in src/app/services/tracker.py) -/

/-- The DetectionResult dataclass. -/
structure DetectionResult where
  bboxes : List SvcBox
  scores : List ℚ
  classIds : List ℤ
deriving DecidableEq

/-- One value of the TrackerService.tracks dict. -/
structure SvcTrack where
  bbox : SvcBox
  score : ℚ
  classId : ℤ
  cameraId : String
  timestamp : ℚ
deriving DecidableEq

/-- The mutable state of a TrackerService instance. -/
structure TrackerServiceState where
  maxTimeDiff : ℚ
  tracks : List (String × SvcTrack)
  nextId : ℕ
deriving DecidableEq

/-- TrackerService.__init__. -/
def mkTrackerService (maxTimeDiff : ℚ) : TrackerServiceState :=
  { maxTimeDiff := maxTimeDiff, tracks := [], nextId := 0 }

/-- TrackerService._calculate_iou. -/
def calculateIou (b1 b2 : SvcBox) : ℚ :=
  let xLeft := max b1.x1 b2.x1
  let yTop := max b1.y1 b2.y1
  let xRight := min b1.x2 b2.x2
  let yBottom := min b1.y2 b2.y2
  if xRight < xLeft ∨ yBottom < yTop then 0
  else
    let interArea := (xRight - xLeft) * (yBottom - yTop)
    let b1Area := (b1.x2 - b1.x1) * (b1.y2 - b1.y1)
    let b2Area := (b2.x2 - b2.x1) * (b2.y2 - b2.y1)
    let unionArea := b1Area + b2Area - interArea
    if 0 < unionArea then interArea / unionArea else 0

/-- The inner for-loop of TrackerService.update over a snapshot
list(self.tracks.items()): the first argument walks the snapshot, the second
is the live dict being mutated (deletions of stale tracks, in-place update of
the matched track).  Returns the mutated dict and the matched id, if any. -/
def svcMatchLoop (maxTD : ℚ) (cam : String) (ts : ℚ) (newTr : SvcTrack) :
    List (String × SvcTrack) → List (String × SvcTrack) →
    List (String × SvcTrack) × Option String
  | [], tracks => (tracks, none)
  | (tid, tr) :: rest, tracks =>
      if tr.cameraId ≠ cam then
        svcMatchLoop maxTD cam ts newTr rest tracks
      else if maxTD < ts - tr.timestamp then
        svcMatchLoop maxTD cam ts newTr rest (removeAssoc tracks tid)
      else if 1 / 2 < calculateIou newTr.bbox tr.bbox then
        (setAssoc tracks tid newTr, some tid)
      else
        svcMatchLoop maxTD cam ts newTr rest tracks

/-- The per-detection body of TrackerService.update.  The accumulator carries
the state and the new_tracks dict. -/
def svcTrackerStep (cam : String) (ts : ℚ)
    (acc : TrackerServiceState × List (String × SvcTrack))
    (det : SvcBox × ℚ × ℤ) : TrackerServiceState × List (String × SvcTrack) :=
  let s := acc.1
  let newTracks := acc.2
  let newTr : SvcTrack :=
    { bbox := det.1, score := det.2.1, classId := det.2.2,
      cameraId := cam, timestamp := ts }
  let r := svcMatchLoop s.maxTimeDiff cam ts newTr s.tracks s.tracks
  match r.2 with
  | some tid => ({ s with tracks := r.1 }, setAssoc newTracks tid newTr)
  | none =>
      let tid := trackName s.nextId
      ({ s with tracks := r.1 ++ [(tid, newTr)], nextId := s.nextId + 1 },
       setAssoc newTracks tid newTr)

/-- TrackerService.update: early return of an empty dict on an empty bbox
list (without touching the stored tracks), otherwise one svcTrackerStep per
detection; zip truncates to the shortest input as Python zip does. -/
def svcTrackerUpdate (s : TrackerServiceState) (detection : DetectionResult)
    (ts : ℚ) (cam : String) :
    TrackerServiceState × List (String × SvcTrack) :=
  if detection.bboxes.isEmpty then (s, [])
  else
    (detection.bboxes.zip (detection.scores.zip detection.classIds)).foldl
      (svcTrackerStep cam ts) (s, [])

/-- A whole run of a TrackerService over a sequence of update calls. -/
def runTrackerService (maxTD : ℚ)
    (updates : List (DetectionResult × ℚ × String)) : TrackerServiceState :=
  updates.foldl (fun s u => (svcTrackerUpdate s u.1 u.2.1 u.2.2).1)
    (mkTrackerService maxTD)

/-! ## Lemmas about the greedy matching matrix -/

/-- Row-major order on matrix positions. -/
def lexLt (a b : ℕ × ℕ) : Prop := a.1 < b.1 ∨ (a.1 = b.1 ∧ a.2 < b.2)

lemma mem_rowEntries (i : ℕ) (row : List (Option ℚ)) :
    ∀ (j a b : ℕ) (v : ℚ),
      ((a, b, v) ∈ rowEntries i j row ↔
        (a = i ∧ ∃ k, row[k]? = some (some v) ∧ b = j + k)) := by
  induction row with
  | nil => simp [rowEntries]
  | cons e rest ih =>
      intro j a b v
      cases e with
      | none =>
          rw [rowEntries, ih]
          constructor
          · rintro ⟨rfl, k, hk, rfl⟩
            exact ⟨rfl, k + 1, by simpa using hk, by omega⟩
          · rintro ⟨rfl, k, hk, rfl⟩
            cases k with
            | zero => simp at hk
            | succ k => exact ⟨rfl, k, by simpa using hk, by omega⟩
      | some w =>
          rw [rowEntries]
          simp only [List.mem_cons, ih, Prod.mk.injEq]
          constructor
          · rintro (⟨rfl, rfl, rfl⟩ | ⟨rfl, k, hk, rfl⟩)
            · exact ⟨rfl, 0, by simp, by omega⟩
            · exact ⟨rfl, k + 1, by simpa using hk, by omega⟩
          · rintro ⟨rfl, k, hk, rfl⟩
            cases k with
            | zero =>
                simp only [List.getElem?_cons_zero, Option.some.injEq,
                  Option.some_inj] at hk
                exact Or.inl ⟨rfl, by omega, hk.symm⟩
            | succ k => exact Or.inr ⟨rfl, k, by simpa using hk, by omega⟩

lemma rowEntries_fst (i : ℕ) (row : List (Option ℚ)) :
    ∀ (j : ℕ), ∀ e ∈ rowEntries i j row, e.1 = i := by
  induction row with
  | nil => simp [rowEntries]
  | cons e rest ih =>
      intro j f hf
      cases e with
      | none => exact ih (j + 1) f (by simpa [rowEntries] using hf)
      | some w =>
          rw [rowEntries] at hf
          rcases List.mem_cons.mp hf with rfl | hf
          · rfl
          · exact ih (j + 1) f hf

lemma rowEntries_snd_ge (i : ℕ) (row : List (Option ℚ)) :
    ∀ (j : ℕ), ∀ e ∈ rowEntries i j row, j ≤ e.2.1 := by
  induction row with
  | nil => simp [rowEntries]
  | cons e rest ih =>
      intro j f hf
      cases e with
      | none =>
          have := ih (j + 1) f (by simpa [rowEntries] using hf)
          omega
      | some w =>
          rw [rowEntries] at hf
          rcases List.mem_cons.mp hf with rfl | hf
          · simp
          · have := ih (j + 1) f hf
            omega

lemma rowEntries_pairwise (i : ℕ) (row : List (Option ℚ)) :
    ∀ (j : ℕ), (rowEntries i j row).Pairwise (fun e1 e2 => e1.2.1 < e2.2.1) := by
  induction row with
  | nil => simp [rowEntries]
  | cons e rest ih =>
      intro j
      cases e with
      | none => simpa [rowEntries] using ih (j + 1)
      | some w =>
          rw [rowEntries]
          refine List.pairwise_cons.mpr ⟨?_, ih (j + 1)⟩
          intro f hf
          have := rowEntries_snd_ge i rest (j + 1) f hf
          simpa using by omega

lemma entriesFrom_fst_ge (m : List (List (Option ℚ))) :
    ∀ (i : ℕ), ∀ e ∈ entriesFrom i m, i ≤ e.1 := by
  induction m with
  | nil => simp [entriesFrom]
  | cons row rest ih =>
      intro i e he
      rw [entriesFrom] at he
      rcases List.mem_append.mp he with h | h
      · exact (rowEntries_fst i row 0 e h).symm ▸ le_refl i
      · have := ih (i + 1) e h
        omega

lemma entriesFrom_pairwise (m : List (List (Option ℚ))) :
    ∀ (i : ℕ), (entriesFrom i m).Pairwise
      (fun e1 e2 => lexLt (e1.1, e1.2.1) (e2.1, e2.2.1)) := by
  induction m with
  | nil => simp [entriesFrom]
  | cons row rest ih =>
      intro i
      rw [entriesFrom]
      refine List.pairwise_append.mpr ⟨?_, ih (i + 1), ?_⟩
      · refine (rowEntries_pairwise i row 0).imp_of_mem ?_
        intro e1 e2 h1 h2 hlt
        have f1 := rowEntries_fst i row 0 e1 h1
        have f2 := rowEntries_fst i row 0 e2 h2
        exact Or.inr ⟨by rw [f1, f2], hlt⟩
      · intro e1 h1 e2 h2
        have f1 := rowEntries_fst i row 0 e1 h1
        have f2 := entriesFrom_fst_ge rest (i + 1) e2 h2
        exact Or.inl (by omega)

lemma mem_entriesFrom (m : List (List (Option ℚ))) :
    ∀ (i0 a b : ℕ) (v : ℚ),
      ((a, b, v) ∈ entriesFrom i0 m ↔
        ∃ k row, m[k]? = some row ∧ a = i0 + k ∧ row[b]? = some (some v)) := by
  induction m with
  | nil => simp [entriesFrom]
  | cons row rest ih =>
      intro i0 a b v
      rw [entriesFrom]
      simp only [List.mem_append, mem_rowEntries, ih]
      constructor
      · rintro (⟨rfl, k, hk, rfl⟩ | ⟨k, row2, hk, rfl, hb⟩)
        · exact ⟨0, row, by simp, by omega, by simpa using hk⟩
        · exact ⟨k + 1, row2, by simpa using hk, by omega, hb⟩
      · rintro ⟨k, row2, hk, rfl, hb⟩
        cases k with
        | zero =>
            simp only [List.getElem?_cons_zero, Option.some.injEq] at hk
            subst hk
            exact Or.inl ⟨by omega, b, hb, by omega⟩
        | succ k =>
            exact Or.inr ⟨k, row2, by simpa using hk, by omega, hb⟩

lemma entryAt_eq_some (m : List (List (Option ℚ))) (a b : ℕ) (v : ℚ) :
    entryAt m a b = some v ↔ ∃ row, m[a]? = some row ∧ row[b]? = some (some v) := by
  rw [entryAt]
  cases hm : m[a]? with
  | none => simp
  | some row =>
      cases hb : row[b]? with
      | none => simp [hb]
      | some e => cases e <;> simp [hb]

lemma mem_entriesRM (m : List (List (Option ℚ))) (a b : ℕ) (v : ℚ) :
    (a, b, v) ∈ entriesRM m ↔ entryAt m a b = some v := by
  rw [entriesRM, mem_entriesFrom, entryAt_eq_some]
  constructor
  · rintro ⟨k, row, hk, rfl, hb⟩
    exact ⟨row, by simpa using hk, hb⟩
  · rintro ⟨row, hm, hb⟩
    exact ⟨a, row, hm, (Nat.zero_add a).symm, hb⟩

lemma pickMin_eq_none (l : List (ℕ × ℕ × ℚ)) : pickMin l = none → l = [] := by
  cases l with
  | nil => intro; rfl
  | cons e rest =>
      intro h
      rw [pickMin] at h
      rcases hr : pickMin rest with _ | ⟨bv, bi, bj⟩ <;> rw [hr] at h
      · simp at h
      · by_cases hle : e.2.2 ≤ bv <;> simp [hle] at h

lemma pickMin_mem (l : List (ℕ × ℕ × ℚ)) :
    ∀ (v : ℚ) (i j : ℕ), pickMin l = some (v, i, j) → (i, j, v) ∈ l := by
  induction l with
  | nil => intro v i j h; rw [pickMin] at h; exact absurd h (by simp)
  | cons e rest ih =>
      intro v i j h
      rw [pickMin] at h
      rcases hr : pickMin rest with _ | ⟨bv, bi, bj⟩ <;> rw [hr] at h
      · simp only [Option.some.injEq, Prod.mk.injEq] at h
        obtain ⟨rfl, rfl, rfl⟩ := h
        exact List.mem_cons_self _ _
      · by_cases hle : e.2.2 ≤ bv <;> simp only [hle, if_true, if_false,
          Option.some.injEq, Prod.mk.injEq] at h
        · obtain ⟨rfl, rfl, rfl⟩ := h
          exact List.mem_cons_self _ _
        · obtain ⟨rfl, rfl, rfl⟩ := h
          exact List.mem_cons_of_mem _ (ih _ _ _ hr)

lemma pickMin_le (l : List (ℕ × ℕ × ℚ)) :
    ∀ (v : ℚ) (i j : ℕ), pickMin l = some (v, i, j) → ∀ e ∈ l, v ≤ e.2.2 := by
  induction l with
  | nil => simp
  | cons e rest ih =>
      intro v i j h f hf
      rw [pickMin] at h
      rcases hr : pickMin rest with _ | ⟨bv, bi, bj⟩ <;> rw [hr] at h
      · have : rest = [] := pickMin_eq_none rest hr
        subst this
        simp only [Option.some.injEq, Prod.mk.injEq] at h
        obtain ⟨rfl, rfl, rfl⟩ := h
        rcases List.mem_cons.mp hf with rfl | hf
        · exact le_refl _
        · simp at hf
      · by_cases hle : e.2.2 ≤ bv <;> simp only [hle, if_true, if_false,
          Option.some.injEq, Prod.mk.injEq] at h
        · obtain ⟨rfl, rfl, rfl⟩ := h
          rcases List.mem_cons.mp hf with rfl | hf
          · exact le_refl _
          · exact le_trans hle (ih _ _ _ hr f hf)
        · obtain ⟨rfl, rfl, rfl⟩ := h
          rcases List.mem_cons.mp hf with rfl | hf
          · exact le_of_not_le hle
          · exact ih _ _ _ hr f hf

lemma pickMin_first (l : List (ℕ × ℕ × ℚ)) :
    ∀ (v : ℚ) (i j : ℕ),
      l.Pairwise (fun e1 e2 => lexLt (e1.1, e1.2.1) (e2.1, e2.2.1)) →
      pickMin l = some (v, i, j) →
      ∀ e ∈ l, lexLt (e.1, e.2.1) (i, j) → v < e.2.2 := by
  induction l with
  | nil => simp
  | cons e rest ih =>
      intro v i j hpw h f hf hlt
      obtain ⟨hhead, hrest⟩ := List.pairwise_cons.mp hpw
      rw [pickMin] at h
      rcases hr : pickMin rest with _ | ⟨bv, bi, bj⟩ <;> rw [hr] at h
      · have : rest = [] := pickMin_eq_none rest hr
        subst this
        simp only [Option.some.injEq, Prod.mk.injEq] at h
        obtain ⟨rfl, rfl, rfl⟩ := h
        rcases List.mem_cons.mp hf with rfl | hf
        · rcases hlt with hlt | ⟨_, hlt⟩ <;> omega
        · simp at hf
      · by_cases hle : e.2.2 ≤ bv <;> simp only [hle, if_true, if_false,
          Option.some.injEq, Prod.mk.injEq] at h
        · obtain ⟨rfl, rfl, rfl⟩ := h
          rcases List.mem_cons.mp hf with rfl | hf
          · rcases hlt with hlt | ⟨_, hlt⟩ <;> omega
          · rcases hhead f hf with hc | ⟨hc1, hc2⟩ <;>
              rcases hlt with hd | ⟨hd1, hd2⟩ <;> omega
        · obtain ⟨rfl, rfl, rfl⟩ := h
          rcases List.mem_cons.mp hf with rfl | hf
          · exact lt_of_not_le hle
          · exact ih _ _ _ hrest hr f hf hlt

lemma findMin_entry (m : List (List (Option ℚ))) (v : ℚ) (i j : ℕ)
    (h : findMin m = some (v, i, j)) : entryAt m i j = some v :=
  (mem_entriesRM m i j v).mp (pickMin_mem _ _ _ _ h)

lemma findMin_min (m : List (List (Option ℚ))) (v : ℚ) (i j : ℕ)
    (h : findMin m = some (v, i, j)) :
    ∀ (i' j' : ℕ) (v' : ℚ), entryAt m i' j' = some v' → v ≤ v' := by
  intro i' j' v' h'
  exact pickMin_le _ _ _ _ h (i', j', v') ((mem_entriesRM m i' j' v').mpr h')

lemma findMin_first (m : List (List (Option ℚ))) (v : ℚ) (i j : ℕ)
    (h : findMin m = some (v, i, j)) :
    ∀ (i' j' : ℕ) (v' : ℚ), entryAt m i' j' = some v' →
      lexLt (i', j') (i, j) → v < v' := by
  intro i' j' v' h' hlt
  exact pickMin_first _ _ _ _ (entriesFrom_pairwise m 0) h (i', j', v')
    ((mem_entriesRM m i' j' v').mpr h') hlt

lemma entryAt_markUsed (iM jM : ℕ) (m : List (List (Option ℚ))) (i j : ℕ) :
    entryAt (markUsed iM jM m) i j =
      if i = iM ∨ j = jM then none else entryAt m i j := by
  rw [markUsed, entryAt, entryAt]
  simp only [List.getElem?_mapIdx]
  cases hm : m[i]? with
  | none => simp
  | some row =>
      cases hr : row[j]? with
      | none => simp [List.getElem?_mapIdx, hr]
      | some e =>
          by_cases hc : i = iM ∨ j = jM <;>
            simp [List.getElem?_mapIdx, hr, hc]

lemma greedyMatch_mem_entry :
    ∀ (fuel : ℕ) (m : List (List (Option ℚ))) (maxD : ℚ) (i j : ℕ),
      (i, j) ∈ greedyMatch fuel m maxD →
      ∃ v, entryAt m i j = some v ∧ distLtB v maxD = true := by
  intro fuel
  induction fuel with
  | zero => simp [greedyMatch]
  | succ fuel ih =>
      intro m maxD i j h
      rw [greedyMatch] at h
      split at h
      · simp at h
      · rename_i v0 i0 j0 hf
        split at h
        · rename_i hd
          rcases List.mem_cons.mp h with heq | h
          · simp only [Prod.mk.injEq] at heq
            obtain ⟨rfl, rfl⟩ := heq
            exact ⟨v0, findMin_entry m v0 i j hf, hd⟩
          · obtain ⟨v, hv, hvd⟩ := ih _ _ _ _ h
            rw [entryAt_markUsed] at hv
            by_cases hc : i = i0 ∨ j = j0
            · rw [if_pos hc] at hv; exact absurd hv (by simp)
            · rw [if_neg hc] at hv; exact ⟨v, hv, hvd⟩
        · simp at h

lemma greedyMatch_pairwise :
    ∀ (fuel : ℕ) (m : List (List (Option ℚ))) (maxD : ℚ),
      (greedyMatch fuel m maxD).Pairwise (fun a b => a.1 ≠ b.1 ∧ a.2 ≠ b.2) := by
  intro fuel
  induction fuel with
  | zero => simp [greedyMatch]
  | succ fuel ih =>
      intro m maxD
      rw [greedyMatch]
      split
      · simp
      · rename_i v0 i0 j0 hf
        split
        · refine List.pairwise_cons.mpr ⟨?_, ih _ _⟩
          intro b hb
          obtain ⟨v, hv, _⟩ :=
            greedyMatch_mem_entry fuel _ maxD b.1 b.2 (by simpa using hb)
          rw [entryAt_markUsed] at hv
          by_cases hc : b.1 = i0 ∨ b.2 = j0
          · rw [if_pos hc] at hv; exact absurd hv (by simp)
          · push_neg at hc
            exact ⟨fun hh => hc.1 hh.symm, fun hh => hc.2 hh.symm⟩
        · simp

lemma entryAt_buildMatrix (prev curr : List (ℚ × ℚ)) (i j : ℕ) (v : ℚ) :
    entryAt (buildMatrix prev curr) i j = some v ↔
      ∃ p c, prev[i]? = some p ∧ curr[j]? = some c ∧ v = distSq p c := by
  rw [entryAt, buildMatrix]
  simp only [List.getElem?_map]
  cases hp : prev[i]? with
  | none => simp
  | some p =>
      cases hc : curr[j]? with
      | none => simp [List.getElem?_map, hc]
      | some c =>
          constructor
          · intro h
            simp [List.getElem?_map, hc] at h
            exact ⟨p, c, rfl, rfl, h.symm⟩
          · rintro ⟨p2, c2, hp2, hc2, rfl⟩
            simp at hp2 hc2
            subst hp2
            subst hc2
            simp [List.getElem?_map, hc]

lemma matchesOf_spec (s : TrackerState) (objects : List Detection) (i j : ℕ)
    (h : (i, j) ∈ matchesOf s objects) :
    ∃ p c, s.trackedObjects[i]? = some p ∧ objects[j]? = some c ∧
      distLtB (distSq (centerOfT p) (centerOfD c)) s.maxDistance = true := by
  rw [matchesOf] at h
  obtain ⟨v, hv, hvd⟩ := greedyMatch_mem_entry _ _ _ _ _ h
  rw [entryAt_buildMatrix] at hv
  obtain ⟨pc, cc, hp, hc, rfl⟩ := hv
  rw [List.getElem?_map] at hp hc
  cases hp2 : s.trackedObjects[i]? with
  | none => rw [hp2] at hp; simp at hp
  | some p =>
      cases hc2 : objects[j]? with
      | none => rw [hc2] at hc; simp at hc
      | some c =>
          rw [hp2] at hp
          rw [hc2] at hc
          simp at hp hc
          subst hp
          subst hc
          exact ⟨p, c, rfl, rfl, hvd⟩

/-! ## Injectivity of the decimal track-id rendering -/

lemma digitChar_injOn : ∀ a < 10, ∀ b < 10,
    Nat.digitChar a = Nat.digitChar b → a = b := by decide

lemma toDigitsCore_succ (b f n : ℕ) (ds : List Char) :
    Nat.toDigitsCore b (f + 1) n ds =
      if n / b = 0 then Nat.digitChar (n % b) :: ds
      else Nat.toDigitsCore b f (n / b) (Nat.digitChar (n % b) :: ds) := rfl

lemma toDigitsCore_10 :
    ∀ (f n : ℕ) (l : List Char), 0 < n → n < f →
      Nat.toDigitsCore 10 f n l =
        ((Nat.digits 10 n).map Nat.digitChar).reverse ++ l := by
  intro f
  induction f with
  | zero => intro n l hn hf; omega
  | succ f ih =>
      intro n l hn hf
      rw [toDigitsCore_succ]
      by_cases h : n / 10 = 0
      · have h10 : n < 10 := (Nat.div_eq_zero_iff (by norm_num)).mp h
        rw [if_pos h, Nat.digits_def' (by norm_num : (1 : ℕ) < 10) hn, h]
        simp [Nat.mod_eq_of_lt h10]
      · rw [if_neg h]
        have hp : 0 < n / 10 := Nat.pos_of_ne_zero h
        have hlt : n / 10 < f :=
          lt_of_lt_of_le (Nat.div_lt_self hn (by norm_num)) (Nat.lt_succ_iff.mp hf)
        rw [ih (n / 10) _ hp hlt, Nat.digits_def' (by norm_num : (1 : ℕ) < 10) hn]
        simp

/-- The decimal rendering of a natural number as a character list. -/
def decRepr (n : ℕ) : List Char :=
  if n = 0 then ['0'] else ((Nat.digits 10 n).map Nat.digitChar).reverse

lemma repr_eq_decRepr (n : ℕ) : Nat.repr n = (decRepr n).asString := by
  unfold Nat.repr Nat.toDigits decRepr
  by_cases h : n = 0
  · subst h; rfl
  · rw [if_neg h,
      toDigitsCore_10 (n + 1) n [] (Nat.pos_of_ne_zero h) (Nat.lt_succ_self n)]
    simp

lemma map_digitChar_inj :
    ∀ (l1 l2 : List ℕ), (∀ x ∈ l1, x < 10) → (∀ x ∈ l2, x < 10) →
      l1.map Nat.digitChar = l2.map Nat.digitChar → l1 = l2 := by
  intro l1
  induction l1 with
  | nil =>
      intro l2 _ _ h
      cases l2 with
      | nil => rfl
      | cons b t2 => simp at h
  | cons a t ih =>
      intro l2 h1 h2 h
      cases l2 with
      | nil => simp at h
      | cons b t2 =>
          simp only [List.map_cons, List.cons.injEq] at h
          have hab : a = b :=
            digitChar_injOn a (h1 a (by simp)) b (h2 b (by simp)) h.1
          rw [hab, ih t2 (fun x hx => h1 x (by simp [hx]))
            (fun x hx => h2 x (by simp [hx])) h.2]

lemma digits_eq_single_zero (n : ℕ)
    (h : (Nat.digits 10 n).map Nat.digitChar = ['0']) : n = 0 := by
  cases hd : Nat.digits 10 n with
  | nil => rw [hd] at h; simp at h
  | cons k t =>
      rw [hd] at h
      simp only [List.map_cons, List.cons.injEq, List.map_eq_nil_iff] at h
      obtain ⟨hk, ht⟩ := h
      have hk10 : k < 10 := Nat.digits_lt_base (by norm_num) (hd ▸ List.mem_cons_self k t)
      have hk0 : k = 0 := by
        have : Nat.digitChar 0 = '0' := rfl
        exact digitChar_injOn k hk10 0 (by norm_num) (by rw [hk, this])
      have : n = Nat.ofDigits 10 (Nat.digits 10 n) := (Nat.ofDigits_digits 10 n).symm
      rw [hd, hk0, ht] at this
      simpa [Nat.ofDigits] using this

lemma decRepr_inj : Function.Injective decRepr := by
  intro m n h
  unfold decRepr at h
  by_cases hm : m = 0 <;> by_cases hn : n = 0
  · rw [hm, hn]
  · rw [if_pos hm, if_neg hn] at h
    have h2 : (Nat.digits 10 n).map Nat.digitChar = ['0'] := by
      have := congrArg List.reverse h
      simpa using this.symm
    exact absurd (digits_eq_single_zero n h2) hn
  · rw [if_neg hm, if_pos hn] at h
    have h2 : (Nat.digits 10 m).map Nat.digitChar = ['0'] := by
      have := congrArg List.reverse h
      simpa using this
    exact absurd (digits_eq_single_zero m h2) hm
  · rw [if_neg hm, if_neg hn] at h
    have h2 : (Nat.digits 10 m).map Nat.digitChar =
        (Nat.digits 10 n).map Nat.digitChar := by
      have := congrArg List.reverse h
      simpa using this
    have h3 : Nat.digits 10 m = Nat.digits 10 n :=
      map_digitChar_inj _ _
        (fun x hx => Nat.digits_lt_base (by norm_num) hx)
        (fun x hx => Nat.digits_lt_base (by norm_num) hx) h2
    calc m = Nat.ofDigits 10 (Nat.digits 10 m) := (Nat.ofDigits_digits 10 m).symm
    _ = Nat.ofDigits 10 (Nat.digits 10 n) := by rw [h3]
    _ = n := Nat.ofDigits_digits 10 n

lemma repr_injective : Function.Injective Nat.repr := by
  intro m n h
  apply decRepr_inj
  rw [repr_eq_decRepr, repr_eq_decRepr] at h
  have h2 := congrArg String.data h
  simpa [List.asString] using h2

lemma trackName_injective : Function.Injective trackName := by
  intro m n h
  apply repr_injective
  unfold trackName at h
  have h2 := congrArg String.data h
  rw [String.data_append, String.data_append] at h2
  have h3 := List.append_cancel_left h2
  cases hm : Nat.repr m with
  | mk dm =>
      cases hn : Nat.repr n with
      | mk dn =>
          rw [hm, hn] at h3
          exact congrArg String.mk h3

/-! ## C4 and C5: the distance bound and the row-major tie-break -/

/-- C4: every (previous-track, new-detection) pair bound as a match by the
greedy loop has center-to-center Euclidean distance strictly below
max_distance; no pair at distance ≥ max_distance is ever matched (the loop
guard stops the selection as soon as the minimum reaches max_distance). -/
theorem C4_distance_bound (s : TrackerState) (objects : List Detection)
    (i j : ℕ) (h : (i, j) ∈ matchesOf s objects) :
    ∃ p c, s.trackedObjects[i]? = some p ∧ objects[j]? = some c ∧
      0 < s.maxDistance ∧
      distSq (centerOfT p) (centerOfD c) < s.maxDistance * s.maxDistance ∧
      Real.sqrt ((distSq (centerOfT p) (centerOfD c) : ℚ) : ℝ)
        < ((s.maxDistance : ℚ) : ℝ) := by
  obtain ⟨p, c, hp, hc, hd⟩ := matchesOf_spec s objects i j h
  rw [distLtB, Bool.and_eq_true, decide_eq_true_iff, decide_eq_true_iff] at hd
  obtain ⟨h1, h2⟩ := hd
  refine ⟨p, c, hp, hc, h1, h2, ?_⟩
  rw [Real.sqrt_lt' (by exact_mod_cast h1)]
  rw [pow_two]
  exact_mod_cast h2

/-- Witness for C4 at a concrete tracker state and detection list. -/
theorem C4_witness :
    ((0, 0) ∈ matchesOf
        { mkTracker 1 100 with
            trackedObjects := [⟨"track_0", 0, 0, 10, 10, 1, none, 0⟩]
            nextId := 1 }
        [⟨1, 0, 10, 10, 1, none⟩]) ∧
    (∃ p c,
      ({ mkTracker 1 100 with
          trackedObjects := [⟨"track_0", 0, 0, 10, 10, 1, none, 0⟩]
          nextId := 1 } : TrackerState).trackedObjects[(0 : ℕ)]? = some p ∧
      ([⟨1, 0, 10, 10, 1, none⟩] : List Detection)[(0 : ℕ)]? = some c ∧
      0 < ({ mkTracker 1 100 with
          trackedObjects := [⟨"track_0", 0, 0, 10, 10, 1, none, 0⟩]
          nextId := 1 } : TrackerState).maxDistance ∧
      distSq (centerOfT p) (centerOfD c) < 100 * 100 ∧
      Real.sqrt ((distSq (centerOfT p) (centerOfD c) : ℚ) : ℝ) < ((100 : ℚ) : ℝ)) :=
  have hmem : (0, 0) ∈ matchesOf
      { mkTracker 1 100 with
          trackedObjects := [⟨"track_0", 0, 0, 10, 10, 1, none, 0⟩]
          nextId := 1 }
      [⟨1, 0, 10, 10, 1, none⟩] := by
    have h : matchesOf
        { mkTracker 1 100 with
            trackedObjects := [⟨"track_0", 0, 0, 10, 10, 1, none, 0⟩]
            nextId := 1 }
        [⟨1, 0, 10, 10, 1, none⟩] = [(0, 0)] := by
      norm_num [matchesOf, mkTracker, greedyMatch, buildMatrix, centerOfT,
        centerOfD, distSq, findMin, entriesRM, entriesFrom, rowEntries, pickMin,
        distLtB, markUsed, entryAt]
    rw [h]
    exact List.mem_singleton.mpr rfl
  ⟨hmem, C4_distance_bound _ _ 0 0 hmem⟩

/-- C5: the greedy selection is deterministic with a row-major tie-break: the
position returned by findMin holds the minimum of the matrix, and every
position strictly earlier in row-major order holds a strictly larger value,
so among tied minima the row-major-first one is selected. -/
theorem C5_rowmajor_tiebreak (m : List (List (Option ℚ))) (v : ℚ) (i j : ℕ)
    (h : findMin m = some (v, i, j)) :
    entryAt m i j = some v ∧
    (∀ (i' j' : ℕ) (v' : ℚ), entryAt m i' j' = some v' → v ≤ v') ∧
    (∀ (i' j' : ℕ) (v' : ℚ), entryAt m i' j' = some v' →
      (i' < i ∨ (i' = i ∧ j' < j)) → v < v') :=
  ⟨findMin_entry m v i j h, findMin_min m v i j h,
   fun i' j' v' h' hlt => findMin_first m v i j h i' j' v' h' hlt⟩

/-- Witness for C5 on a matrix with a tied minimum at (0,1) and (1,0): the
row-major-first position (0,1) is selected. -/
theorem C5_witness :
    findMin [[some 5, some 2], [some 2, some 9]] = some (2, 0, 1) ∧
    (entryAt [[some 5, some 2], [some 2, some 9]] 0 1 = some 2 ∧
    (∀ (i' j' : ℕ) (v' : ℚ),
      entryAt [[some 5, some 2], [some 2, some 9]] i' j' = some v' → 2 ≤ v') ∧
    (∀ (i' j' : ℕ) (v' : ℚ),
      entryAt [[some 5, some 2], [some 2, some 9]] i' j' = some v' →
      (i' < 0 ∨ (i' = 0 ∧ j' < 1)) → 2 < v')) :=
  ⟨by decide, C5_rowmajor_tiebreak _ 2 0 1 (by decide)⟩

/-! ## Lemmas about Counter.update -/

lemma accepts_iff (f : String) (d : ℚ) :
    accepts f d = true ↔
      (f = "any" ∨ (f = "positive" ∧ 0 < d) ∨ (f = "negative" ∧ d < 0)) := by
  simp [accepts, Bool.or_eq_true, Bool.and_eq_true, decide_eq_true_iff, or_assoc]

lemma dot2_zero (v : ℚ × ℚ) : dot2 v (0, 0) = 0 := by
  simp [dot2]

/-- Case analysis of one Counter.update loop iteration: either nothing is
counted (counted set, total and pending events unchanged), or the object's id
was uncounted, passes the direction filter for some positions, and one event
is appended while the id is added and the total incremented. -/
lemma counterStep_cases (ts : ℚ) (s : CounterState) (ncs : List Crossing)
    (o : CtrObj) :
    ((counterStep ts (s, ncs) o).1.countedObjects = s.countedObjects ∧
     (counterStep ts (s, ncs) o).1.totalCount = s.totalCount ∧
     (counterStep ts (s, ncs) o).2 = ncs)
    ∨ (o.id ∉ s.countedObjects ∧
       (counterStep ts (s, ncs) o).1.countedObjects = s.countedObjects ++ [o.id] ∧
       (counterStep ts (s, ncs) o).1.totalCount = s.totalCount + 1 ∧
       ∃ p1 p2 : ℚ × ℚ,
         accepts s.direction (crossingDirection s p1 p2) = true ∧
         (counterStep ts (s, ncs) o).2 = ncs ++
           [{ object_id := o.id, timestamp := ts,
              direction := if 0 < crossingDirection s p1 p2 then "positive"
                           else "negative" }]) := by
  rw [counterStep]
  cases h : lookupAssoc s.objectPositions o.id with
  | none => exact Or.inl ⟨rfl, rfl, rfl⟩
  | some prev =>
      by_cases h1 : hasCrossedLine s prev (ctrCenter o) = true
      · by_cases h2 : accepts s.direction (crossingDirection s prev (ctrCenter o)) = true
        · by_cases h3 : o.id ∈ s.countedObjects
          · exact Or.inl (by simp [h1, h2, h3])
          · exact Or.inr ⟨h3, by simp [h1, h2, h3], by simp [h1, h2, h3],
              prev, ctrCenter o, h2, by simp [h1, h2, h3]⟩
        · exact Or.inl (by simp [h1, h2])
      · exact Or.inl (by simp [h1])

/-- Fields of the counter state that the per-object loop never writes. -/
lemma counterStep_fields (ts : ℚ) (s : CounterState) (ncs : List Crossing)
    (o : CtrObj) :
    (counterStep ts (s, ncs) o).1.crossingTimestamps = s.crossingTimestamps ∧
    (counterStep ts (s, ncs) o).1.direction = s.direction ∧
    (counterStep ts (s, ncs) o).1.lineNormal = s.lineNormal ∧
    (counterStep ts (s, ncs) o).1.lineStart = s.lineStart ∧
    (counterStep ts (s, ncs) o).1.lineEnd = s.lineEnd ∧
    (counterStep ts (s, ncs) o).1.countsByTimestamp = s.countsByTimestamp := by
  rw [counterStep]
  cases lookupAssoc s.objectPositions o.id with
  | none => exact ⟨rfl, rfl, rfl, rfl, rfl, rfl⟩
  | some prev =>
      dsimp only
      split_ifs <;> exact ⟨rfl, rfl, rfl, rfl, rfl, rfl⟩

lemma foldl_counterStep_inv (ts : ℚ) (P : CounterState × List Crossing → Prop)
    (hP : ∀ s ncs o, P (s, ncs) → P (counterStep ts (s, ncs) o)) :
    ∀ (objs : List CtrObj) (acc : CounterState × List Crossing),
      P acc → P (objs.foldl (counterStep ts) acc) := by
  intro objs
  induction objs with
  | nil => intro acc h; exact h
  | cons o rest ih =>
      intro acc h
      cases acc with
      | mk s ncs => exact ih _ (hP s ncs o h)

/-- The state invariant of a Counter between updates. -/
def CtrInv (s : CounterState) : Prop :=
  (∀ c ∈ s.crossingTimestamps, c.object_id ∈ s.countedObjects) ∧
  ((s.crossingTimestamps.map (·.object_id)).Nodup) ∧
  s.countedObjects.Nodup ∧
  s.totalCount = s.countedObjects.length

/-- The invariant carried through the per-object loop of one update, relative
to the state s0 at the start of the update. -/
def MidInv (s0 : CounterState) (acc : CounterState × List Crossing) : Prop :=
  (∀ c ∈ acc.1.crossingTimestamps ++ acc.2, c.object_id ∈ acc.1.countedObjects) ∧
  (((acc.1.crossingTimestamps ++ acc.2).map (·.object_id)).Nodup) ∧
  acc.1.countedObjects.Nodup ∧
  acc.1.totalCount = acc.1.countedObjects.length ∧
  acc.1.crossingTimestamps = s0.crossingTimestamps ∧
  acc.1.direction = s0.direction ∧
  acc.1.lineNormal = s0.lineNormal ∧
  (∀ c ∈ acc.2,
    (s0.direction = "positive" → c.direction = "positive") ∧
    (s0.direction = "negative" → c.direction = "negative")) ∧
  ((s0.lineNormal = (0, 0) ∧ (s0.direction = "positive" ∨ s0.direction = "negative"))
    → acc.2 = [])

lemma counterStep_midinv (ts : ℚ) (s0 : CounterState) :
    ∀ (s : CounterState) (ncs : List Crossing) (o : CtrObj),
      MidInv s0 (s, ncs) → MidInv s0 (counterStep ts (s, ncs) o) := by
  intro s ncs o h
  obtain ⟨hmem, hnd, hcnd, htot, hev, hdir, hnor, hdirok, hzero⟩ := h
  obtain ⟨hf1, hf2, hf3, _, _, _⟩ := counterStep_fields ts s ncs o
  rcases counterStep_cases ts s ncs o with
    ⟨hc1, hc2, hc3⟩ | ⟨hnotin, hc1, hc2, p1, p2, hacc, hc3⟩
  · exact ⟨by rw [hf1, hc1, hc3]; exact hmem,
      by rw [hf1, hc3]; exact hnd,
      by rw [hc1]; exact hcnd,
      by rw [hc2, hc1]; exact htot,
      by rw [hf1]; exact hev,
      by rw [hf2]; exact hdir,
      by rw [hf3]; exact hnor,
      by rw [hc3]; exact hdirok,
      by rw [hc3]; exact hzero⟩
  · have hids : ∀ c ∈ s.crossingTimestamps ++ ncs, c.object_id ≠ o.id := by
      intro c hc heq
      exact hnotin (heq ▸ hmem c hc)
    refine ⟨?_, ?_, ?_, ?_, by rw [hf1]; exact hev, by rw [hf2]; exact hdir,
      by rw [hf3]; exact hnor, ?_, ?_⟩
    · intro c hc
      rw [hf1, hc3, hc1] at *
      rcases List.mem_append.mp hc with hc' | hc'
      · exact List.mem_append_left _ (hmem c (List.mem_append_left _ hc'))
      · rcases List.mem_append.mp hc' with hc'' | hc''
        · exact List.mem_append_left _ (hmem c (List.mem_append_right _ hc''))
        · simp only [List.mem_singleton] at hc''
          subst hc''
          simp
    · rw [hf1, hc3, ← List.append_assoc, List.map_append, List.nodup_append]
      refine ⟨hnd, by simp, ?_⟩
      intro a ha hb
      simp only [List.map_cons, List.map_nil, List.mem_singleton] at hb
      obtain ⟨c, hc, hca⟩ := List.mem_map.mp ha
      exact hids c hc (by rw [hca, hb])
    · rw [hc1, List.nodup_append]
      exact ⟨hcnd, List.nodup_singleton _, by
        intro a ha hb
        simp only [List.mem_singleton] at hb
        exact hnotin (hb ▸ ha)⟩
    · rw [hc1, hc2, List.length_append, List.length_singleton, htot]
    · rw [hc3]
      intro c hc
      rcases List.mem_append.mp hc with hc' | hc'
      · exact hdirok c hc'
      · simp only [List.mem_singleton] at hc'
        subst hc'
        constructor
        · intro hpos
          rw [hdir, hpos] at hacc
          rcases (accepts_iff _ _).mp hacc with h | h | h
          · simp at h
          · simp [h.2]
          · simp at h
        · intro hneg
          rw [hdir, hneg] at hacc
          rcases (accepts_iff _ _).mp hacc with h | h | h
          · simp at h
          · simp at h
          · simp [not_lt.mpr (le_of_lt h.2)]
    · intro hcond
      exfalso
      have hdz : crossingDirection s p1 p2 = 0 := by
        rw [crossingDirection, hnor, hcond.1, dot2_zero]
      rw [hdir, hdz] at hacc
      rcases hcond.2 with hp | hp <;> rw [hp] at hacc <;>
        rcases (accepts_iff _ _).mp hacc with h | h | h <;> simp at h
/-- Unconditional per-update accounting: the return value of Counter.update
is exactly the growth of the counted set, and total_count grows by the same
amount. -/
lemma counterUpdate_len (s : CounterState) (objs : List CtrObj) :
    (counterUpdate s objs).1.countedObjects.length
      = s.countedObjects.length + (counterUpdate s objs).2 ∧
    (counterUpdate s objs).1.totalCount
      = s.totalCount + (counterUpdate s objs).2 := by
  rw [counterUpdate]
  cases hs : sortByTs objs with
  | nil => exact ⟨rfl, rfl⟩
  | cons o rest =>
      have h := foldl_counterStep_inv o.timestamp
        (fun acc => acc.1.countedObjects.length
            = s.countedObjects.length + acc.2.length ∧
          acc.1.totalCount = s.totalCount + acc.2.length)
        (by
          intro s1 ncs o1 hp
          dsimp only at hp ⊢
          rcases counterStep_cases o.timestamp s1 ncs o1 with
            ⟨h1, h2, h3⟩ | ⟨_, h1, h2, _, _, _, h3⟩
          · rw [h1, h2, h3]; exact hp
          · rw [h1, h2, h3]
            simp only [List.length_append, List.length_cons, List.length_nil]
            omega)
        (o :: rest) (s, []) (by simp)
      dsimp only
      rcases hF : (o :: rest).foldl (counterStep o.timestamp) (s, []) with ⟨s1, ncs⟩
      rw [hF] at h
      dsimp only at h ⊢
      by_cases he : ncs.isEmpty = true
      · rw [if_pos he]
        exact ⟨h.1, h.2⟩
      · rw [if_neg he]
        exact ⟨h.1, h.2⟩

/-- The full effect of one Counter.update on a state satisfying the
between-update invariant. -/
lemma counterUpdate_spec (s : CounterState) (objs : List CtrObj)
    (hInv : CtrInv s) :
    CtrInv (counterUpdate s objs).1 ∧
    (counterUpdate s objs).1.direction = s.direction ∧
    (counterUpdate s objs).1.lineNormal = s.lineNormal ∧
    (∃ ncs : List Crossing,
      (counterUpdate s objs).1.crossingTimestamps = s.crossingTimestamps ++ ncs ∧
      (counterUpdate s objs).2 = ncs.length ∧
      (∀ c ∈ ncs,
        (s.direction = "positive" → c.direction = "positive") ∧
        (s.direction = "negative" → c.direction = "negative")) ∧
      ((s.lineNormal = (0, 0) ∧
          (s.direction = "positive" ∨ s.direction = "negative")) → ncs = [])) := by
  rw [counterUpdate]
  cases hs : sortByTs objs with
  | nil => exact ⟨hInv, rfl, rfl, [], by simp, rfl, by simp, fun _ => rfl⟩
  | cons o rest =>
      have hmid := foldl_counterStep_inv o.timestamp (MidInv s)
        (counterStep_midinv o.timestamp s) (o :: rest) (s, [])
        ⟨by simpa using hInv.1, by simpa using hInv.2.1, hInv.2.2.1,
         hInv.2.2.2, rfl, rfl, rfl, by simp, fun _ => rfl⟩
      dsimp only
      rcases hF : (o :: rest).foldl (counterStep o.timestamp) (s, []) with ⟨s1, ncs⟩
      rw [hF] at hmid
      obtain ⟨hmem, hnd, hcnd, htot, hev, hdir, hnor, hdirok, hzero⟩ := hmid
      dsimp only at hmem hnd hcnd htot hev hdir hnor hdirok hzero ⊢
      by_cases he : ncs.isEmpty = true
      · have hnil : ncs = [] := List.isEmpty_iff.mp he
        subst hnil
        rw [if_pos he]
        refine ⟨⟨by simpa using hmem, by simpa using hnd, hcnd, htot⟩,
          hdir, hnor, [], by simpa using hev, rfl, by simp, fun _ => rfl⟩
      · rw [if_neg he]
        refine ⟨⟨hmem, hnd, hcnd, htot⟩, hdir, hnor, ncs, ?_, rfl, ?_, ?_⟩
        · dsimp only
          rw [hev]
        · intro c hc
          exact hdirok c hc
        · intro hcond
          exact hzero hcond

/-- The invariant maintained along a whole Counter run. -/
def RunInv (line : CrossingLineQ) (dir : String) (s : CounterState) : Prop :=
  CtrInv s ∧ s.direction = dir ∧
  s.lineNormal = (mkCounter line dir).lineNormal ∧
  (∀ c ∈ s.crossingTimestamps,
    (dir = "positive" → c.direction = "positive") ∧
    (dir = "negative" → c.direction = "negative")) ∧
  (((mkCounter line dir).lineNormal = (0, 0) ∧
      (dir = "positive" ∨ dir = "negative")) → s.totalCount = 0)

lemma runCounter_inv (line : CrossingLineQ) (dir : String)
    (batches : List (List CtrObj)) :
    RunInv line dir (runCounter line dir batches) := by
  rw [runCounter]
  have hbase : RunInv line dir (mkCounter line dir) := by
    refine ⟨⟨by simp [mkCounter], by simp [mkCounter], by simp [mkCounter],
      by simp [mkCounter]⟩, rfl, rfl, by simp [mkCounter],
      fun _ => by simp [mkCounter]⟩
  have hstep : ∀ (bs : List (List CtrObj)) (s : CounterState),
      RunInv line dir s →
      RunInv line dir (bs.foldl (fun s b => (counterUpdate s b).1) s) := by
    intro bs
    induction bs with
    | nil => intro s h; exact h
    | cons b rest ih =>
        intro s h
        apply ih
        obtain ⟨hInv, hdir, hnor, hdirall, hzero⟩ := h
        obtain ⟨hInv', hdir', hnor', ncs, hev, hret, hdirok, hncszero⟩ :=
          counterUpdate_spec s b hInv
        refine ⟨hInv', by rw [hdir', hdir], by rw [hnor', hnor], ?_, ?_⟩
        · rw [hev]
          intro c hc
          rcases List.mem_append.mp hc with hc' | hc'
          · exact hdirall c hc'
          · have := hdirok c hc'
            rw [hdir] at this
            exact this
        · intro hcond
          have hncs : ncs = [] :=
            hncszero ⟨by rw [hnor, ← hcond.1], by rw [hdir]; exact hcond.2⟩
          have hlen := (counterUpdate_len s b).2
          rw [hret, hncs] at hlen
          simp only [List.length_nil, Nat.add_zero] at hlen
          rw [hlen]
          exact hzero hcond
  exact hstep batches _ hbase

lemma runCounterTrace_fst (line : CrossingLineQ) (dir : String)
    (batches : List (List CtrObj)) :
    (runCounterTrace line dir batches).1 = runCounter line dir batches := by
  rw [runCounterTrace, runCounter]
  have h : ∀ (bs : List (List CtrObj)) (s : CounterState) (rets : List ℕ),
      (bs.foldl (fun acc b =>
          ((counterUpdate acc.1 b).1, acc.2 ++ [(counterUpdate acc.1 b).2]))
        (s, rets)).1
      = bs.foldl (fun s b => (counterUpdate s b).1) s := by
    intro bs
    induction bs with
    | nil => intro s rets; rfl
    | cons b rest ih => intro s rets; exact ih _ _
  exact h batches _ _

lemma runCounterTrace_sum (line : CrossingLineQ) (dir : String)
    (batches : List (List CtrObj)) :
    (runCounterTrace line dir batches).1.totalCount
      = (runCounterTrace line dir batches).2.sum := by
  rw [runCounterTrace]
  have h : ∀ (bs : List (List CtrObj)) (s : CounterState) (rets : List ℕ),
      s.totalCount = rets.sum →
      ((bs.foldl (fun acc b =>
          ((counterUpdate acc.1 b).1, acc.2 ++ [(counterUpdate acc.1 b).2]))
        (s, rets)).1.totalCount
      = (bs.foldl (fun acc b =>
          ((counterUpdate acc.1 b).1, acc.2 ++ [(counterUpdate acc.1 b).2]))
        (s, rets)).2.sum) := by
    intro bs
    induction bs with
    | nil => intro s rets h; exact h
    | cons b rest ih =>
        intro s rets h
        apply ih
        have := (counterUpdate_len s b).2
        rw [this, h]
        simp
  exact h batches _ _ (by simp [mkCounter])

/-! ## C1, C6, C7, C10 -/

/-- C1 counterexample: in CounterService, one and the same track id is counted
twice — the cumulative count reaches 2 and two crossing events reference the
track id "t" — because CounterService.update increments self.count on every
detected crossing with no counted-set check. -/
theorem C1_counterexample :
    (runSvcCounter 100 "any" "cam" "conv"
      [([("t", ⟨0, 60, 10, 80⟩)], 1), ([("t", ⟨0, 100, 10, 120⟩)], 2),
       ([("t", ⟨0, 60, 10, 80⟩)], 3)]).1.count = 2 ∧
    ((runSvcCounter 100 "any" "cam" "conv"
      [([("t", ⟨0, 60, 10, 80⟩)], 1), ([("t", ⟨0, 100, 10, 120⟩)], 2),
       ([("t", ⟨0, 60, 10, 80⟩)], 3)]).2.countP
        (fun c => c.track_id == "t")) = 2 := by
  constructor <;>
    norm_num [runSvcCounter, mkCounterService, svcCounterUpdate, svcCounterStep,
      lookupAssoc, setAssoc, mkCounter, counterUpdate, counterStep, sortByTs,
      insertByTs, ctrCenter, hasCrossedLine, crossingDirection, accepts, vsub,
      crossZ, dot2]

/-- C1 (amended): the at-most-once property holds for the Counter class: over
any run, at most one recorded crossing event references any given track id,
the counted set never holds duplicates, and the total equals its size.  (The
CounterService wrapper does not deduplicate, see the counterexample.) -/
theorem C1_at_most_once (line : CrossingLineQ) (dir : String)
    (batches : List (List CtrObj)) (tid : String) :
    ((runCounter line dir batches).crossingTimestamps.countP
      (fun c => c.object_id == tid)) ≤ 1 ∧
    (runCounter line dir batches).countedObjects.Nodup ∧
    (runCounter line dir batches).totalCount
      = (runCounter line dir batches).countedObjects.length := by
  obtain ⟨⟨hmem, hnd, hcnd, htot⟩, _, _, _, _⟩ := runCounter_inv line dir batches
  refine ⟨?_, hcnd, htot⟩
  have h1 : ((runCounter line dir batches).crossingTimestamps.map
      (·.object_id)).count tid ≤ 1 :=
    List.nodup_iff_count_le_one.mp hnd tid
  have h2 : ((runCounter line dir batches).crossingTimestamps.map
        (·.object_id)).count tid
      = (runCounter line dir batches).crossingTimestamps.countP
        (fun c => c.object_id == tid) := by
    show ((runCounter line dir batches).crossingTimestamps.map
        (·.object_id)).countP (· == tid) = _
    rw [List.countP_map]
    rfl
  rw [← h2]
  exact h1

/-- C6: a detected crossing is accepted exactly when the filter is any, or
positive with direction > 0, or negative with direction < 0; under filter
positive (resp. negative) every recorded event carries that direction; and in
the concrete scenario of a track whose center moves from y=70 to y=110 over a
horizontal line at y=100, both the Counter and the CounterService
threshold mode count 1 under filter positive and 0 under filter negative. -/
theorem C6_direction_filter :
    (∀ (f : String) (d : ℚ), accepts f d = true ↔
      (f = "any" ∨ (f = "positive" ∧ 0 < d) ∨ (f = "negative" ∧ d < 0))) ∧
    (∀ (line : CrossingLineQ) (batches : List (List CtrObj)),
      ∀ c ∈ (runCounter line "positive" batches).crossingTimestamps,
        c.direction = "positive") ∧
    (∀ (line : CrossingLineQ) (batches : List (List CtrObj)),
      ∀ c ∈ (runCounter line "negative" batches).crossingTimestamps,
        c.direction = "negative") ∧
    (runCounter ⟨0, 100, 1000, 100⟩ "positive"
      [[⟨"t1", 10, 60, 20, 20, 1⟩], [⟨"t1", 10, 100, 20, 20, 2⟩]]).totalCount = 1 ∧
    (runCounter ⟨0, 100, 1000, 100⟩ "negative"
      [[⟨"t1", 10, 60, 20, 20, 1⟩], [⟨"t1", 10, 100, 20, 20, 2⟩]]).totalCount = 0 ∧
    (runSvcCounter 100 "positive" "cam" "conv"
      [([("t", ⟨0, 60, 10, 80⟩)], 1), ([("t", ⟨0, 100, 10, 120⟩)], 2)]).1.count = 1 ∧
    (runSvcCounter 100 "negative" "cam" "conv"
      [([("t", ⟨0, 60, 10, 80⟩)], 1), ([("t", ⟨0, 100, 10, 120⟩)], 2)]).1.count = 0 := by
  refine ⟨accepts_iff, ?_, ?_, ?_, ?_, ?_, ?_⟩
  · intro line batches c hc
    exact ((runCounter_inv line "positive" batches).2.2.2.1 c hc).1 rfl
  · intro line batches c hc
    exact ((runCounter_inv line "negative" batches).2.2.2.1 c hc).2 rfl
  all_goals
    norm_num +decide [runCounter, runSvcCounter, mkCounterService,
      svcCounterUpdate, svcCounterStep, lookupAssoc, setAssoc, mkCounter,
      counterUpdate, counterStep, sortByTs, insertByTs, ctrCenter,
      hasCrossedLine, crossingDirection, accepts, vsub, crossZ, dot2]

/-- C7 counterexample: constructing a Counter on the zero-length line
(5,5)-(5,5) does not raise any error — it returns a fully formed state whose
line normal silently fell back to the zero vector. -/
theorem C7_counterexample :
    (mkCounter ⟨5, 5, 5, 5⟩ "any").lineNormal = (0, 0) ∧
    (mkCounter ⟨5, 5, 5, 5⟩ "any").direction = "any" ∧
    (mkCounter ⟨5, 5, 5, 5⟩ "any").totalCount = 0 := by
  norm_num [mkCounter, vsub]

/-- C7 (amended): construction with a zero-length crossing line succeeds
silently; the normalization step is skipped (the norm is 0), the stored
normal is the zero vector, every crossing direction evaluates to 0, and
consequently under filter positive or negative no object is ever counted. -/
theorem C7_zero_length_line (x y : ℚ) (dir : String) :
    (mkCounter ⟨x, y, x, y⟩ dir).lineNormal = (0, 0) ∧
    (∀ prevPos currPos : ℚ × ℚ,
      crossingDirection (mkCounter ⟨x, y, x, y⟩ dir) prevPos currPos = 0) ∧
    (∀ batches : List (List CtrObj),
      (runCounter ⟨x, y, x, y⟩ "positive" batches).totalCount = 0) ∧
    (∀ batches : List (List CtrObj),
      (runCounter ⟨x, y, x, y⟩ "negative" batches).totalCount = 0) := by
  have hnorm : ∀ d : String, (mkCounter ⟨x, y, x, y⟩ d).lineNormal = (0, 0) := by
    intro d
    simp [mkCounter, vsub]
  refine ⟨hnorm dir, ?_, ?_, ?_⟩
  · intro prevPos currPos
    rw [crossingDirection, hnorm dir, dot2_zero]
  · intro batches
    exact (runCounter_inv ⟨x, y, x, y⟩ "positive" batches).2.2.2.2
      ⟨hnorm "positive", Or.inl rfl⟩
  · intro batches
    exact (runCounter_inv ⟨x, y, x, y⟩ "negative" batches).2.2.2.2
      ⟨hnorm "negative", Or.inr rfl⟩

/-- C10: after every run, total_count equals the size of the counted set;
the per-update return values sum to the final total; and unconditionally each
update returns exactly the number of ids newly added to the counted set. -/
theorem C10_count_invariant (line : CrossingLineQ) (dir : String)
    (batches : List (List CtrObj)) :
    (runCounter line dir batches).totalCount
      = (runCounter line dir batches).countedObjects.length ∧
    (runCounterTrace line dir batches).2.sum
      = (runCounter line dir batches).totalCount ∧
    (∀ (s : CounterState) (b : List CtrObj),
      (counterUpdate s b).1.countedObjects.length
        = s.countedObjects.length + (counterUpdate s b).2) := by
  refine ⟨(runCounter_inv line dir batches).1.2.2.2, ?_,
    fun s b => (counterUpdate_len s b).1⟩
  rw [← runCounterTrace_fst line dir batches, runCounterTrace_sum]

/-! ## Lemmas about the Tracker -/

/-- The ids allocated by k consecutive fresh allocations starting at n. -/
def idsFrom (n k : ℕ) : List String :=
  (List.range k).map (fun i => trackName (n + i))

lemma idsFrom_succ (n k : ℕ) :
    idsFrom n (k + 1) = trackName n :: idsFrom (n + 1) k := by
  unfold idsFrom
  rw [List.range_succ_eq_map]
  simp only [List.map_cons, List.map_map, Nat.add_zero]
  refine congrArg _ ?_
  apply List.map_congr_left
  intro i _
  simp only [Function.comp_apply]
  congr 1
  omega

lemma mem_idsFrom (n k : ℕ) (x : String) :
    x ∈ idsFrom n k ↔ ∃ i, i < k ∧ x = trackName (n + i) := by
  unfold idsFrom
  simp only [List.mem_map, List.mem_range]
  constructor
  · rintro ⟨i, hi, rfl⟩; exact ⟨i, hi, rfl⟩
  · rintro ⟨i, hi, rfl⟩; exact ⟨i, hi, rfl⟩

lemma idsFrom_nodup (n k : ℕ) : (idsFrom n k).Nodup := by
  unfold idsFrom
  refine List.Nodup.map ?_ (List.nodup_range k)
  intro a b h
  have := trackName_injective h
  omega

lemma initFold_spec (ts : ℚ) :
    ∀ (objs : List Detection) (st : TrackerState),
      (objs.foldl (initStep ts) st).nextId = st.nextId + objs.length ∧
      ((objs.foldl (initStep ts) st).trackedObjects.map (·.id)
        = st.trackedObjects.map (·.id) ++ idsFrom st.nextId objs.length) ∧
      (∀ t ∈ (objs.foldl (initStep ts) st).trackedObjects,
        t ∈ st.trackedObjects ∨ t.timestamp = ts) ∧
      ((objs.foldl (initStep ts) st).trackedObjects.map
          (fun t => (t.x, t.y, t.width, t.height))
        = st.trackedObjects.map (fun t => (t.x, t.y, t.width, t.height))
          ++ objs.map (fun o => (o.x, o.y, o.width, o.height))) := by
  intro objs
  induction objs with
  | nil =>
      intro st
      exact ⟨rfl, by simp [idsFrom], fun t ht => Or.inl ht, by simp⟩
  | cons o rest ih =>
      intro st
      obtain ⟨h1, h2, h3, h4⟩ := ih (initStep ts st o)
      rw [List.foldl_cons]
      refine ⟨?_, ?_, ?_, ?_⟩
      · rw [h1]
        simp only [initStep, List.length_cons]
        omega
      · rw [h2]
        simp only [initStep, List.map_append, List.map_cons, List.map_nil,
          List.length_cons, idsFrom_succ]
        rw [List.append_assoc]
        rfl
      · intro t ht
        rcases h3 t ht with ht' | ht'
        · simp only [initStep, List.mem_append, List.mem_singleton] at ht'
          rcases ht' with ht'' | ht''
          · exact Or.inl ht''
          · exact Or.inr (by rw [ht''])
        · exact Or.inr ht'
      · rw [h4]
        simp only [initStep, List.map_append, List.map_cons, List.map_nil,
          List.append_assoc]
        rfl

lemma getElem?_mem_of_some {α : Type} {l : List α} {i : ℕ} {a : α}
    (h : l[i]? = some a) : a ∈ l := by
  obtain ⟨hlt, rfl⟩ := List.getElem?_eq_some_iff.mp h
  exact List.getElem_mem hlt

lemma matchesOf_bounds (s : TrackerState) (objects : List Detection)
    (i j : ℕ) (h : (i, j) ∈ matchesOf s objects) :
    i < s.trackedObjects.length ∧ j < objects.length := by
  obtain ⟨p, c, hp, hc, _⟩ := matchesOf_spec s objects i j h
  exact ⟨(List.getElem?_eq_some_iff.mp hp).1, (List.getElem?_eq_some_iff.mp hc).1⟩

lemma updatedOf_ids (s : TrackerState) (objects : List Detection) (ts : ℚ) :
    (updatedOf s objects ts).map (·.id)
      = (matchesOf s objects).filterMap
          (fun ij => (s.trackedObjects.map (·.id))[ij.1]?) := by
  rw [updatedOf, List.map_filterMap]
  apply List.filterMap_congr
  intro ij hij
  obtain ⟨hi, hj⟩ := matchesOf_bounds s objects ij.1 ij.2 (by
    rcases ij with ⟨i, j⟩; exact hij)
  rw [List.getElem?_eq_getElem hi, List.getElem?_eq_getElem hj]
  rw [List.getElem?_map, List.getElem?_eq_getElem hi]
  rfl

lemma filterMap_get_nodup {α : Type} [DecidableEq α] :
    ∀ (idxs : List ℕ) (l : List α), l.Nodup → idxs.Pairwise (· ≠ ·) →
      (idxs.filterMap (fun i => l[i]?)).Nodup := by
  intro idxs
  induction idxs with
  | nil => intro l _ _; simp
  | cons i rest ih =>
      intro l hnd hpw
      obtain ⟨hhead, htail⟩ := List.pairwise_cons.mp hpw
      rw [List.filterMap_cons]
      cases hi : l[i]? with
      | none => exact ih l hnd htail
      | some x =>
          refine List.nodup_cons.mpr ⟨?_, ih l hnd htail⟩
          intro hx
          obtain ⟨i2, hi2mem, hi2⟩ := List.mem_filterMap.mp hx
          have hlt : i < l.length := (List.getElem?_eq_some_iff.mp hi).1
          have : i = i2 := List.getElem?_inj hlt hnd (by rw [hi, hi2])
          exact hhead i2 hi2mem this

lemma updatedOf_ids_nodup (s : TrackerState) (objects : List Detection)
    (ts : ℚ) (hnd : (s.trackedObjects.map (·.id)).Nodup) :
    ((updatedOf s objects ts).map (·.id)).Nodup := by
  rw [updatedOf_ids]
  have hform : (matchesOf s objects).filterMap
        (fun ij => (s.trackedObjects.map (·.id))[ij.1]?)
      = ((matchesOf s objects).map (·.1)).filterMap
        (fun i => (s.trackedObjects.map (·.id))[i]?) := by
    rw [List.filterMap_map]
    rfl
  rw [hform]
  refine filterMap_get_nodup _ _ hnd ?_
  exact ((greedyMatch_pairwise _ _ _).map _ (fun a b hab => hab.1))

lemma updatedOf_ids_sub (s : TrackerState) (objects : List Detection) (ts : ℚ) :
    ∀ x ∈ (updatedOf s objects ts).map (·.id),
      x ∈ s.trackedObjects.map (·.id) := by
  rw [updatedOf_ids]
  intro x hx
  obtain ⟨ij, _, hij⟩ := List.mem_filterMap.mp hx
  exact getElem?_mem_of_some hij

lemma updatedOf_timestamp (s : TrackerState) (objects : List Detection)
    (ts : ℚ) : ∀ t ∈ updatedOf s objects ts, t.timestamp = ts := by
  intro t ht
  obtain ⟨ij, _, hij⟩ := List.mem_filterMap.mp ht
  rcases hp : s.trackedObjects[ij.1]? with _ | p <;> rw [hp] at hij
  · simp at hij
  · rcases hc : objects[ij.2]? with _ | c <;> rw [hc] at hij
    · simp at hij
    · simp only [Option.some.injEq] at hij
      rw [← hij]
      rfl

lemma newFold_spec (ts : ℚ) (objects : List Detection) :
    ∀ (idxs : List ℕ) (acc : List TrackedObj × ℕ),
      (∀ j ∈ idxs, j < objects.length) →
      ((idxs.foldl (newStep ts objects) acc).2 = acc.2 + idxs.length ∧
       ((idxs.foldl (newStep ts objects) acc).1.map (·.id)
         = acc.1.map (·.id) ++ idsFrom acc.2 idxs.length) ∧
       (∀ t ∈ (idxs.foldl (newStep ts objects) acc).1,
         t ∈ acc.1 ∨ t.timestamp = ts)) := by
  intro idxs
  induction idxs with
  | nil =>
      intro acc _
      exact ⟨rfl, by simp [idsFrom], fun t ht => Or.inl ht⟩
  | cons j rest ih =>
      intro acc hb
      have hj : j < objects.length := hb j (by simp)
      rw [List.foldl_cons]
      have hstep : newStep ts objects acc j
          = (acc.1 ++ [newTrack acc.2 (objects[j]) ts], acc.2 + 1) := by
        rw [newStep, List.getElem?_eq_getElem hj]
      obtain ⟨h1, h2, h3⟩ := ih (newStep ts objects acc j)
        (fun j2 hj2 => hb j2 (by simp [hj2]))
      refine ⟨?_, ?_, ?_⟩
      · rw [h1, hstep]
        simp only [List.length_cons]
        omega
      · rw [h2, hstep]
        simp only [List.map_append, List.map_cons, List.map_nil,
          List.length_cons, idsFrom_succ]
        rw [List.append_assoc]
        rfl
      · intro t ht
        rcases h3 t ht with ht' | ht'
        · rw [hstep] at ht'
          simp only [List.mem_append, List.mem_singleton] at ht'
          rcases ht' with ht'' | ht''
          · exact Or.inl ht''
          · exact Or.inr (by rw [ht'']; rfl)
        · exact Or.inr ht'

lemma unmatchedIdxOf_bounds (s : TrackerState) (objects : List Detection) :
    ∀ j ∈ unmatchedIdxOf s objects, j < objects.length := by
  intro j hj
  rw [unmatchedIdxOf] at hj
  exact List.mem_range.mp (List.mem_filter.mp hj).1

/-- The live-track ids and the id counter after _match_objects, in closed
form: they depend only on the geometry, never on the update timestamp. -/
lemma matchObjects_ids (s : TrackerState) (objects : List Detection) (ts : ℚ) :
    ((matchObjects s objects ts).trackedObjects.map (·.id)
      = if s.trackedObjects.isEmpty then idsFrom s.nextId objects.length
        else if objects.isEmpty then []
        else (matchesOf s objects).filterMap
              (fun ij => (s.trackedObjects.map (·.id))[ij.1]?)
            ++ idsFrom s.nextId (unmatchedIdxOf s objects).length) ∧
    ((matchObjects s objects ts).nextId
      = if s.trackedObjects.isEmpty then s.nextId + objects.length
        else if objects.isEmpty then s.nextId
        else s.nextId + (unmatchedIdxOf s objects).length) := by
  rw [matchObjects]
  by_cases h1 : s.trackedObjects.isEmpty = true
  · rw [if_pos h1, if_pos h1, if_pos h1]
    obtain ⟨ha, hb, _, _⟩ := initFold_spec ts objects { s with trackedObjects := [] }
    rw [initializeTracks]
    exact ⟨by rw [hb]; simp, by rw [ha]⟩
  · rw [if_neg h1, if_neg h1, if_neg h1]
    by_cases h2 : objects.isEmpty = true
    · rw [if_pos h2, if_pos h2, if_pos h2]
      exact ⟨rfl, rfl⟩
    · rw [if_neg h2, if_neg h2, if_neg h2]
      obtain ⟨ha, hb, _⟩ := newFold_spec ts objects (unmatchedIdxOf s objects)
        ([], s.nextId) (unmatchedIdxOf_bounds s objects)
      dsimp only
      rw [List.map_append, hb, updatedOf_ids, ha]
      exact ⟨by simp, rfl⟩

/-- Every track present after _match_objects carries the update timestamp:
matched tracks are rewritten, new tracks are created with it, and nothing
else survives. -/
lemma matchObjects_timestamp (s : TrackerState) (objects : List Detection)
    (ts : ℚ) :
    ∀ t ∈ (matchObjects s objects ts).trackedObjects, t.timestamp = ts := by
  rw [matchObjects]
  by_cases h1 : s.trackedObjects.isEmpty = true
  · rw [if_pos h1]
    obtain ⟨_, _, hc, _⟩ := initFold_spec ts objects { s with trackedObjects := [] }
    rw [initializeTracks]
    intro t ht
    rcases hc t ht with ht' | ht'
    · simp at ht'
    · exact ht'
  · rw [if_neg h1]
    by_cases h2 : objects.isEmpty = true
    · rw [if_pos h2]
      intro t ht
      simp at ht
    · rw [if_neg h2]
      obtain ⟨_, _, hc⟩ := newFold_spec ts objects (unmatchedIdxOf s objects)
        ([], s.nextId) (unmatchedIdxOf_bounds s objects)
      dsimp only
      intro t ht
      rcases List.mem_append.mp ht with ht' | ht'
      · exact updatedOf_timestamp s objects ts t ht'
      · rcases hc t ht' with ht'' | ht''
        · simp at ht''
        · exact ht''

/-- The well-formedness invariant of a Tracker: live ids are pairwise
distinct, and every live id is a rendered allocation number below next_id. -/
def TrackerWF (s : TrackerState) : Prop :=
  (s.trackedObjects.map (·.id)).Nodup ∧
  ∀ x ∈ s.trackedObjects.map (·.id), ∃ n, n < s.nextId ∧ x = trackName n

lemma initializeTracks_WF (s : TrackerState) (objs : List Detection) (ts : ℚ) :
    TrackerWF (initializeTracks s objs ts) := by
  obtain ⟨ha, hb, _, _⟩ := initFold_spec ts objs { s with trackedObjects := [] }
  rw [initializeTracks]
  constructor
  · rw [hb]
    simpa using idsFrom_nodup s.nextId objs.length
  · intro x hx
    rw [hb] at hx
    simp only [List.map_nil, List.nil_append] at hx
    obtain ⟨i, hi, rfl⟩ := (mem_idsFrom _ _ _).mp hx
    exact ⟨s.nextId + i, by rw [ha]; exact Nat.add_lt_add_left hi s.nextId, rfl⟩

lemma matchObjects_WF (s : TrackerState) (objects : List Detection) (ts : ℚ)
    (h : TrackerWF s) : TrackerWF (matchObjects s objects ts) := by
  obtain ⟨hids, hnext⟩ := matchObjects_ids s objects ts
  by_cases h1 : s.trackedObjects.isEmpty = true
  · rw [if_pos h1] at hids hnext
    constructor
    · rw [hids]; exact idsFrom_nodup _ _
    · intro x hx
      rw [hids] at hx
      obtain ⟨i, hi, rfl⟩ := (mem_idsFrom _ _ _).mp hx
      exact ⟨s.nextId + i, by rw [hnext]; omega, rfl⟩
  · rw [if_neg h1] at hids hnext
    by_cases h2 : objects.isEmpty = true
    · rw [if_pos h2] at hids hnext
      constructor
      · rw [hids]; exact List.nodup_nil
      · intro x hx
        rw [hids] at hx
        simp at hx
    · rw [if_neg h2] at hids hnext
      have hupd : (matchesOf s objects).filterMap
            (fun ij => (s.trackedObjects.map (·.id))[ij.1]?)
          = (updatedOf s objects ts).map (·.id) := (updatedOf_ids s objects ts).symm
      constructor
      · rw [hids, List.nodup_append]
        refine ⟨by rw [hupd]; exact updatedOf_ids_nodup s objects ts h.1,
          idsFrom_nodup _ _, ?_⟩
        intro x hx hx2
        rw [hupd] at hx
        obtain ⟨n, hn, rfl⟩ := h.2 x (updatedOf_ids_sub s objects ts x hx)
        obtain ⟨i, _, heq⟩ := (mem_idsFrom _ _ _).mp hx2
        have := trackName_injective heq
        omega
      · intro x hx
        rw [hids] at hx
        rcases List.mem_append.mp hx with hx' | hx'
        · rw [hupd] at hx'
          obtain ⟨n, hn, rfl⟩ := h.2 x (updatedOf_ids_sub s objects ts x hx')
          exact ⟨n, by rw [hnext]; omega, rfl⟩
        · obtain ⟨i, hi, rfl⟩ := (mem_idsFrom _ _ _).mp hx'
          exact ⟨s.nextId + i, by rw [hnext]; omega, rfl⟩

lemma trackerUpdate_WF (s : TrackerState) (d1 d2 : DetectionBatch)
    (h : TrackerWF s) : TrackerWF (trackerUpdate s d1 d2) := by
  rw [trackerUpdate]
  have h1 : TrackerWF (if s.trackedObjects.isEmpty
      then initializeTracks s d1.objects d1.timestamp else s) := by
    by_cases hc : s.trackedObjects.isEmpty = true
    · rw [if_pos hc]; exact initializeTracks_WF s d1.objects d1.timestamp
    · rw [if_neg hc]; exact h
  exact matchObjects_WF _ d2.objects d2.timestamp h1

lemma runTracker_WF (maxTD maxD : ℚ)
    (pairs : List (DetectionBatch × DetectionBatch)) :
    TrackerWF (runTracker maxTD maxD pairs) := by
  rw [runTracker]
  have hbase : TrackerWF (mkTracker maxTD maxD) := by
    constructor
    · exact List.nodup_nil
    · intro x hx; simp [mkTracker] at hx
  have hstep : ∀ (ps : List (DetectionBatch × DetectionBatch)) (s : TrackerState),
      TrackerWF s →
      TrackerWF (ps.foldl (fun s p => trackerUpdate s p.1 p.2) s) := by
    intro ps
    induction ps with
    | nil => intro s h; exact h
    | cons p rest ih =>
        intro s h
        exact ih _ (trackerUpdate_WF s p.1 p.2 h)
  exact hstep pairs _ hbase

/-! ## C2, C3, C8 -/

/-- C2 counterexample: a live track (track_0, last updated at t=0) that is
unmatched at t=1/2 — well within max_time_diff = 1 — is dropped from the live
set, and the new far-away detection receives the fresh id track_1. -/
theorem C2_counterexample :
    ((trackerUpdate (mkTracker 1 100) ⟨0, [⟨0, 0, 10, 10, 1, none⟩]⟩
        ⟨1 / 2, [⟨500, 0, 10, 10, 1, none⟩]⟩).trackedObjects.map (·.id)
      = ["track_1"]) ∧
    (1 / 2 - 0 : ℚ) ≤ (mkTracker 1 100).maxTimeDiff := by
  constructor
  · norm_num [trackerUpdate, mkTracker, initializeTracks, initStep, matchObjects,
      updatedOf, newStep, unmatchedIdxOf, matchesOf, greedyMatch, buildMatrix,
      centerOfT, centerOfD, distSq, findMin, entriesRM, entriesFrom, rowEntries,
      pickMin, distLtB, markUsed, entryAt, setAssoc, lookupAssoc, appendHistory,
      newTrack, updatedTrack, trackName, List.range_succ]
    rfl
  · norm_num [mkTracker]

/-- C2 (amended): in the Tracker, retention of a previous track depends only
on geometric matching, never on elapsed time: the surviving ids and the id
counter are unchanged under any change of the update timestamp, every track
in the new live set carries the update's timestamp (so no unmatched track is
retained unchanged), and every id in the new live set is either the id of a
previous (matched) track or a freshly allocated id that is at least the old
next_id. -/
theorem C2_retention_is_time_free (s : TrackerState) (objects : List Detection)
    (ts1 ts2 : ℚ) :
    ((matchObjects s objects ts1).trackedObjects.map (·.id)
      = (matchObjects s objects ts2).trackedObjects.map (·.id)) ∧
    (matchObjects s objects ts1).nextId = (matchObjects s objects ts2).nextId ∧
    (∀ t ∈ (matchObjects s objects ts1).trackedObjects, t.timestamp = ts1) ∧
    (∀ t ∈ (matchObjects s objects ts1).trackedObjects,
      t.id ∈ s.trackedObjects.map (·.id) ∨
      ∃ n, s.nextId ≤ n ∧ t.id = trackName n) := by
  refine ⟨?_, ?_, matchObjects_timestamp s objects ts1, ?_⟩
  · rw [(matchObjects_ids s objects ts1).1, (matchObjects_ids s objects ts2).1]
  · rw [(matchObjects_ids s objects ts1).2, (matchObjects_ids s objects ts2).2]
  · intro t ht
    have hx : t.id ∈ (matchObjects s objects ts1).trackedObjects.map (·.id) :=
      List.mem_map_of_mem _ ht
    rw [(matchObjects_ids s objects ts1).1] at hx
    by_cases h1 : s.trackedObjects.isEmpty = true
    · rw [if_pos h1] at hx
      obtain ⟨i, _, heq⟩ := (mem_idsFrom _ _ _).mp hx
      exact Or.inr ⟨s.nextId + i, by omega, heq⟩
    · rw [if_neg h1] at hx
      by_cases h2 : objects.isEmpty = true
      · rw [if_pos h2] at hx
        simp at hx
      · rw [if_neg h2] at hx
        rcases List.mem_append.mp hx with hx' | hx'
        · rw [(updatedOf_ids s objects ts1).symm] at hx'
          exact Or.inl (updatedOf_ids_sub s objects ts1 t.id hx')
        · obtain ⟨i, _, heq⟩ := (mem_idsFrom _ _ _).mp hx'
          exact Or.inr ⟨s.nextId + i, by omega, heq⟩

/-- An empty detection batch always leaves the Tracker with an empty live
set: either branch of _match_objects resets tracked_objects to []. -/
lemma matchObjects_nil (s : TrackerState) (ts : ℚ) :
    (matchObjects s [] ts).trackedObjects = [] := by
  rw [matchObjects]
  by_cases h1 : s.trackedObjects.isEmpty = true
  · rw [if_pos h1]
    rfl
  · rw [if_neg h1]
    rfl

/-- C3 counterexample: a tracker with one live track (updated at t=0) given an
empty detection batch at t=1 (not older than max_time_diff = 1) has its whole
live set cleared, not retained. -/
theorem C3_counterexample :
    ((trackerUpdate (mkTracker 1 100) ⟨0, [⟨0, 0, 10, 10, 1, none⟩]⟩
        ⟨0, [⟨0, 0, 10, 10, 1, none⟩]⟩).trackedObjects.map (·.id)
      = ["track_0"]) ∧
    (trackerUpdate (trackerUpdate (mkTracker 1 100) ⟨0, [⟨0, 0, 10, 10, 1, none⟩]⟩
        ⟨0, [⟨0, 0, 10, 10, 1, none⟩]⟩) ⟨1, []⟩ ⟨1, []⟩).trackedObjects = [] := by
  refine ⟨?_, ?_⟩
  · norm_num [trackerUpdate, mkTracker, initializeTracks, initStep, matchObjects,
      updatedOf, newStep, unmatchedIdxOf, matchesOf, greedyMatch, buildMatrix,
      centerOfT, centerOfD, distSq, findMin, entriesRM, entriesFrom, rowEntries,
      pickMin, distLtB, markUsed, entryAt, setAssoc, lookupAssoc, appendHistory,
      newTrack, updatedTrack, trackName, List.range_succ]
    rfl
  · rw [trackerUpdate]
    exact matchObjects_nil _ 1

/-- C3 (amended): an empty detection batch does not crash; the Tracker resets
its live set to empty (no aging-only retention), while TrackerService returns
an empty dict and leaves its stored tracks untouched (no expiry applied). -/
theorem C3_empty_batch (s : TrackerState) (ts : ℚ)
    (svc : TrackerServiceState) (scores : List ℚ) (classIds : List ℤ)
    (ts2 : ℚ) (cam : String) :
    (matchObjects s [] ts).trackedObjects = [] ∧
    svcTrackerUpdate svc ⟨[], scores, classIds⟩ ts2 cam = (svc, []) :=
  ⟨matchObjects_nil s ts, rfl⟩

/-- C8 counterexample: a malformed detection with width = −5 is accepted into
the track set verbatim — it is neither rejected with a validation error nor
skipped. -/
theorem C8_counterexample :
    (initializeTracks (mkTracker 1 100) [⟨0, 0, -5, 10, 1, none⟩] 0).trackedObjects
      = [{ id := trackName 0, x := 0, y := 0, width := -5, height := 10,
           confidence := 1, classId := none, timestamp := 0 }] := by
  norm_num [initializeTracks, initStep, mkTracker, setAssoc]

/-- C8 (amended): the tracker performs no per-item validation whatsoever:
every detection of a batch, malformed or not, yields exactly one track whose
bounding box is copied verbatim. -/
theorem C8_no_validation (s : TrackerState) (objs : List Detection) (ts : ℚ) :
    ((initializeTracks s objs ts).trackedObjects.map
        (fun t => (t.x, t.y, t.width, t.height))
      = objs.map (fun o => (o.x, o.y, o.width, o.height))) ∧
    (initializeTracks s objs ts).trackedObjects.length = objs.length := by
  obtain ⟨_, _, _, hd⟩ := initFold_spec ts objs { s with trackedObjects := [] }
  rw [initializeTracks]
  constructor
  · rw [hd]; simp
  · have := congrArg List.length hd
    simpa using this

/-! ## C9: id uniqueness in Tracker and TrackerService -/

lemma any_key {α : Type} (l : List (String × α)) (k : String) :
    l.any (fun p => p.1 == k) = true ↔ k ∈ l.map (·.1) := by
  simp [List.any_eq_true, beq_iff_eq, List.mem_map]

lemma setAssoc_keys {α : Type} (l : List (String × α)) (k : String) (v : α) :
    (setAssoc l k v).map (·.1)
      = if l.any (fun p => p.1 == k) then l.map (·.1)
        else l.map (·.1) ++ [k] := by
  rw [setAssoc]
  by_cases h : l.any (fun p => p.1 == k) = true
  · rw [if_pos h, if_pos h, List.map_map]
    apply List.map_congr_left
    intro p _
    simp only [Function.comp_apply]
    by_cases hp : (p.1 == k) = true
    · simp only [hp, if_true]
      exact (beq_iff_eq.mp hp).symm
    · simp [hp]
  · rw [if_neg h, if_neg h, List.map_append]
    rfl

lemma setAssoc_mem {α : Type} (l : List (String × α)) (k : String) (v : α) :
    ∀ p ∈ setAssoc l k v, p ∈ l ∨ p.1 = k := by
  rw [setAssoc]
  by_cases h : l.any (fun p => p.1 == k) = true
  · rw [if_pos h]
    intro p hp
    obtain ⟨q, hq, hpq⟩ := List.mem_map.mp hp
    by_cases hqk : (q.1 == k) = true
    · rw [hqk] at hpq
      simp only [if_true] at hpq
      exact Or.inr (by rw [← hpq])
    · rw [if_neg hqk] at hpq
      exact Or.inl (hpq ▸ hq)
  · rw [if_neg h]
    intro p hp
    rcases List.mem_append.mp hp with hp' | hp'
    · exact Or.inl hp'
    · simp only [List.mem_singleton] at hp'
      exact Or.inr (by rw [hp'])

/-- The well-formedness invariant of a TrackerService: the track dict's keys
are pairwise distinct, and every key is a rendered allocation number below
next_id. -/
def SvcWF (s : TrackerServiceState) : Prop :=
  ((s.tracks.map (·.1)).Nodup) ∧
  ∀ p ∈ s.tracks, ∃ n, n < s.nextId ∧ p.1 = trackName n

lemma svcMatchLoop_inv (maxTD : ℚ) (cam : String) (ts : ℚ) (newTr : SvcTrack)
    (N : ℕ) :
    ∀ (snap tracks : List (String × SvcTrack)),
      ((tracks.map (·.1)).Nodup) →
      (∀ p ∈ tracks, ∃ n, n < N ∧ p.1 = trackName n) →
      (∀ p ∈ snap, ∃ n, n < N ∧ p.1 = trackName n) →
      (((svcMatchLoop maxTD cam ts newTr snap tracks).1.map (·.1)).Nodup ∧
       ∀ p ∈ (svcMatchLoop maxTD cam ts newTr snap tracks).1,
         ∃ n, n < N ∧ p.1 = trackName n) := by
  intro snap
  induction snap with
  | nil => intro tracks h1 h2 _; exact ⟨h1, h2⟩
  | cons e rest ih =>
      rcases e with ⟨tid, tr⟩
      intro tracks h1 h2 hsnap
      rw [svcMatchLoop]
      by_cases hc1 : tr.cameraId ≠ cam
      · rw [if_pos hc1]
        exact ih tracks h1 h2 (fun p hp => hsnap p (by simp [hp]))
      · rw [if_neg hc1]
        by_cases hc2 : maxTD < ts - tr.timestamp
        · rw [if_pos hc2]
          refine ih _ ?_ ?_ (fun p hp => hsnap p (by simp [hp]))
          · exact List.Nodup.sublist
              (List.Sublist.map _ (List.filter_sublist tracks)) h1
          · intro p hp
            exact h2 p (List.mem_filter.mp hp).1
        · rw [if_neg hc2]
          by_cases hc3 : 1 / 2 < calculateIou newTr.bbox tr.bbox
          · rw [if_pos hc3]
            dsimp only
            constructor
            · rw [setAssoc_keys]
              by_cases hany : tracks.any (fun p => p.1 == tid) = true
              · rw [if_pos hany]
                exact h1
              · rw [if_neg hany, List.nodup_append]
                refine ⟨h1, List.nodup_singleton _, ?_⟩
                intro a ha hb
                simp only [List.mem_singleton] at hb
                subst hb
                rw [any_key] at hany
                exact hany ha
            · intro p hp
              rcases setAssoc_mem tracks tid newTr p hp with hp' | hp'
              · exact h2 p hp'
              · obtain ⟨n, hn, heq⟩ := hsnap (tid, tr) (by simp)
                exact ⟨n, hn, by rw [hp']; exact heq⟩
          · rw [if_neg hc3]
            exact ih tracks h1 h2 (fun p hp => hsnap p (by simp [hp]))

lemma svcTrackerStep_WF (cam : String) (ts : ℚ)
    (acc : TrackerServiceState × List (String × SvcTrack))
    (det : SvcBox × ℚ × ℤ) (h : SvcWF acc.1) :
    SvcWF (svcTrackerStep cam ts acc det).1 := by
  rcases acc with ⟨s, newTracks⟩
  rw [svcTrackerStep]
  dsimp only
  have hloop := svcMatchLoop_inv s.maxTimeDiff cam ts
    ⟨det.1, det.2.1, det.2.2, cam, ts⟩ s.nextId s.tracks s.tracks h.1 h.2 h.2
  rcases hr : svcMatchLoop s.maxTimeDiff cam ts
      ⟨det.1, det.2.1, det.2.2, cam, ts⟩ s.tracks s.tracks with ⟨tracks2, matched⟩
  rw [hr] at hloop
  dsimp only at hloop
  cases matched with
  | some tid => exact ⟨hloop.1, fun p hp => hloop.2 p hp⟩
  | none =>
      dsimp only
      constructor
      · rw [List.map_append, List.nodup_append]
        refine ⟨hloop.1, by simp, ?_⟩
        intro a ha hb
        simp only [List.map_cons, List.map_nil, List.mem_singleton] at hb
        subst hb
        obtain ⟨p, hp, hpa⟩ := List.mem_map.mp ha
        obtain ⟨n, hn, heq⟩ := hloop.2 p hp
        have := trackName_injective (by rw [← hpa, heq] : trackName n = trackName s.nextId)
        omega
      · intro p hp
        rcases List.mem_append.mp hp with hp' | hp'
        · obtain ⟨n, hn, heq⟩ := hloop.2 p hp'
          exact ⟨n, Nat.lt_succ_of_lt hn, heq⟩
        · simp only [List.mem_singleton] at hp'
          exact ⟨s.nextId, Nat.lt_succ_self s.nextId, by rw [hp']⟩

lemma svcTrackerUpdate_WF (s : TrackerServiceState) (detection : DetectionResult)
    (ts : ℚ) (cam : String) (h : SvcWF s) :
    SvcWF (svcTrackerUpdate s detection ts cam).1 := by
  rw [svcTrackerUpdate]
  by_cases he : detection.bboxes.isEmpty = true
  · rw [if_pos he]
    exact h
  · rw [if_neg he]
    have hfold : ∀ (l : List (SvcBox × ℚ × ℤ))
        (acc : TrackerServiceState × List (String × SvcTrack)),
        SvcWF acc.1 → SvcWF ((l.foldl (svcTrackerStep cam ts) acc).1) := by
      intro l
      induction l with
      | nil => intro acc hacc; exact hacc
      | cons d rest ih =>
          intro acc hacc
          exact ih _ (svcTrackerStep_WF cam ts acc d hacc)
    exact hfold _ (s, []) h

lemma runTrackerService_WF (maxTD : ℚ)
    (updates : List (DetectionResult × ℚ × String)) :
    SvcWF (runTrackerService maxTD updates) := by
  rw [runTrackerService]
  have hbase : SvcWF (mkTrackerService maxTD) := by
    constructor
    · exact List.nodup_nil
    · intro p hp
      simp [mkTrackerService] at hp
  have hstep : ∀ (us : List (DetectionResult × ℚ × String))
      (s : TrackerServiceState), SvcWF s →
      SvcWF (us.foldl (fun s u => (svcTrackerUpdate s u.1 u.2.1 u.2.2).1) s) := by
    intro us
    induction us with
    | nil => intro s h; exact h
    | cons u rest ih =>
        intro s h
        exact ih _ (svcTrackerUpdate_WF s u.1 u.2.1 u.2.2 h)
  exact hstep updates _ hbase

/-- C9: in any run of a Tracker, and in any run of a TrackerService, no two
live tracks hold the same id, and every live id is a rendered allocation
number strictly below the instance's next_id — so each id was freshly
allocated by the monotone counter and is never reassigned. -/
theorem C9_id_uniqueness (maxTD maxD : ℚ)
    (pairs : List (DetectionBatch × DetectionBatch)) (maxTD2 : ℚ)
    (updates : List (DetectionResult × ℚ × String)) :
    ((runTracker maxTD maxD pairs).trackedObjects.map (·.id)).Nodup ∧
    (∀ x ∈ (runTracker maxTD maxD pairs).trackedObjects.map (·.id),
      ∃ n, n < (runTracker maxTD maxD pairs).nextId ∧ x = trackName n) ∧
    ((runTrackerService maxTD2 updates).tracks.map (·.1)).Nodup ∧
    (∀ p ∈ (runTrackerService maxTD2 updates).tracks,
      ∃ n, n < (runTrackerService maxTD2 updates).nextId ∧ p.1 = trackName n) := by
  obtain ⟨h1, h2⟩ := runTracker_WF maxTD maxD pairs
  obtain ⟨h3, h4⟩ := runTrackerService_WF maxTD2 updates
  exact ⟨h1, h2, h3, h4⟩

end MCTrack
